import Mathlib

/-!
# PS4 input driver (`input/drivers/ps4_input.c`)

A shallow embedding of the keyboard edge detector, the mouse latch and the
joypad binding resolver of the PS4 input driver, built with `HAVE_MOUSE` and
`HAVE_KEYBOARD` defined, followed by theorems about them.

Conventions of the embedding:

* machine integers are `Nat` / `Int`, with explicit reductions where the C code
  converts to a narrower type (`uint16_t`, `uint8_t`, `int16_t`);
* `keyboard_state` is a C array of `PS4_MAX_SCANCODE + 1` cells; every access is
  bounds-checked and an access outside the array (undefined behaviour in C)
  makes the poll return `none`;
* calls to the frontend's event sink `input_keyboard_event` are collected, in
  call order, in a list of `keyboard_event`;
* functions that live outside `ps4_input.c` are parameters; constants of headers
  outside it are either parameters or carry their upstream value, as documented.
-/

namespace PS4Input

/-! ## Constants and tables of `ps4_input.c` -/

/-- Macro `PS4_MAX_SCANCODE`, 0xE7: the last index of `keyboard_state`. -/
def PS4_MAX_SCANCODE : Nat := 0xE7

/-- Macro `PS4_NUM_MODIFIERS`, 11: the number of rows of `modifier_lut`. -/
def PS4_NUM_MODIFIERS : Nat := 11

/-- Macro `KEYBOARD_MAX_HISTORY`, 6: the number of slots of a snapshot. -/
def KEYBOARD_MAX_HISTORY : Nat := 6

/-- Table `uint8_t modifier_lut[PS4_NUM_MODIFIERS][2]`: rows `(scancode, mask bit)` in
declared order. -/
def modifier_lut : List (Nat × Nat) :=
  [ (0xE0, 0x01),  -- LCTRL
    (0xE4, 0x10),  -- RCTRL
    (0xE1, 0x02),  -- LSHIFT
    (0xE5, 0x20),  -- RSHIFT
    (0xE2, 0x04),  -- LALT
    (0xE6, 0x40),  -- RALT
    (0xE3, 0x08),  -- LGUI
    (0xE7, 0x80),  -- RGUI
    (0x53, 0x01),  -- NUMLOCK
    (0x39, 0x02),  -- CAPSLOCK
    (0x47, 0x04) ] -- SCROLLOCK

/-- The scancodes of the first column of `modifier_lut`. -/
def is_modifier (s : Nat) : Bool :=
  (modifier_lut.map Prod.fst).contains s

/-! ## Data model -/

/-- The `device` argument of `input_keyboard_event` and of the query
(`RETRO_DEVICE_*`, `RARCH_DEVICE_MOUSE_SCREEN`); the numeric values live in
`libretro.h` and are not needed. -/
inductive retro_device where
  | JOYPAD
  | MOUSE
  | KEYBOARD
  | ANALOG
  | MOUSE_SCREEN
deriving DecidableEq

/-- One call `input_keyboard_event(down, code, character, mod, device)`.
`key_sym` is a ghost field: the platform scancode whose translation is `code`. -/
structure keyboard_event where
  down : Bool
  key_sym : Nat
  code : Nat
  character : Nat
  mod : Nat
  device : retro_device
deriving DecidableEq

/-- Struct `ps4_input_t`, without the joypad pointer and the two SDK handles. -/
structure ps4_input where
  mice_connected : Bool
  mouse_button_left : Bool
  mouse_button_right : Bool
  mouse_button_middle : Bool
  mouse_x : Int
  mouse_y : Int
  keyboard_connected : Bool
  keyboard_state : Nat → Bool
  prev_keys : Nat → Nat

/-- Struct `SceDbgKeyboardData` as far as the driver reads it: `connected`,
`modifierKey` and `keyCode[0..5]`. -/
structure SceDbgKeyboardData where
  connected : Bool
  modifierKey : Nat
  keyCode : Nat → Nat

/-- Struct `SceMouseData` as far as the driver reads it. `xAxis` and `yAxis` are 32-bit
signed values. -/
structure SceMouseData where
  connected : Bool
  buttons : Nat
  xAxis : Int
  yAxis : Int

/-- The `SCE_MOUSE_BUTTON_*` flag constants of the vendor header `<mouse.h>`. -/
structure SceMouseButton where
  PRIMARY : Nat
  SECONDARY : Nat
  OPTIONAL : Nat
  INTERCEPTED : Nat

/-- A six-cell array given by its leading cells, the rest being 0. -/
def cells (l : List Nat) : Nat → Nat := fun i => l.getD i 0

/-! ## `ps4_input_initialize` -/

/-- Function `ps4_input_initialize`: `calloc` zeroes the struct, then `keyboard_state[0..0xE7]`
is set to false and `prev_keys[0..5]` to 0. -/
def ps4_input_initialize : ps4_input :=
  { mice_connected := false
    mouse_button_left := false
    mouse_button_right := false
    mouse_button_middle := false
    mouse_x := 0
    mouse_y := 0
    keyboard_connected := false
    keyboard_state := fun _ => false
    prev_keys := fun _ => 0 }

/-! ## `ps4_input_poll` -/

/-- Read of `keyboard_state[i]`; `none` outside the array. -/
def ks_read (ks : Nat → Bool) (i : Nat) : Option Bool :=
  if i ≤ PS4_MAX_SCANCODE then some (ks i) else none

/-- Write `keyboard_state[i] = v`; `none` outside the array. -/
def ks_write (ks : Nat → Bool) (i : Nat) (v : Bool) : Option (Nat → Bool) :=
  if i ≤ PS4_MAX_SCANCODE then some (Function.update ks i v) else none

/-- Mouse section of `ps4_input_poll` (lines 92-103). `ret` is the value returned
by `sceMouseRead` and `mouse_state` the buffer it filled. -/
def ps4_input_poll_mouse (F : SceMouseButton) (ret : Int) (mouse_state : SceMouseData)
    (ps4 : ps4_input) : ps4_input :=
  let ps4 := { ps4 with mice_connected := mouse_state.connected, mouse_x := 0, mouse_y := 0 }
  if 0 < ret ∧ ps4.mice_connected = true ∧ mouse_state.buttons &&& F.INTERCEPTED = 0 then
    { ps4 with
      mouse_button_left := decide (mouse_state.buttons &&& F.PRIMARY ≠ 0)
      mouse_button_right := decide (mouse_state.buttons &&& F.SECONDARY ≠ 0)
      mouse_button_middle := decide (mouse_state.buttons &&& F.OPTIONAL ≠ 0)
      mouse_x := mouse_state.xAxis
      mouse_y := mouse_state.yAxis }
  else ps4

/-- Body of the modifier loop (lines 123-136) for the table row `entry`.
`translate` is `input_keymaps_translate_keysym_to_rk`. -/
def modifier_step (translate : Nat → Nat) (modifiers mod : Nat)
    (acc : ps4_input × List keyboard_event) (entry : Nat × Nat) :
    Option (ps4_input × List keyboard_event) :=
  let key_sym := entry.1
  let mod_code := entry.2
  let key_code := translate key_sym
  let key_held : Bool := decide (modifiers &&& mod_code ≠ 0)
  do
    let pressed ← ks_read acc.1.keyboard_state key_sym
    if key_held && !pressed then do
      let ks ← ks_write acc.1.keyboard_state key_sym true
      pure ({ acc.1 with keyboard_state := ks },
            acc.2 ++ [⟨true, key_sym, key_code, 0, mod, retro_device.KEYBOARD⟩])
    else if !key_held && pressed then do
      let ks ← ks_write acc.1.keyboard_state key_sym false
      pure ({ acc.1 with keyboard_state := ks },
            acc.2 ++ [⟨false, key_sym, key_code, 0, mod, retro_device.KEYBOARD⟩])
    else pure acc

/-- The modifier loop `for (i = 0; i < PS4_NUM_MODIFIERS; i++)` (lines 121-137). -/
def modifier_phase (translate : Nat → Nat) (modifiers mod : Nat)
    (acc : ps4_input × List keyboard_event) : Option (ps4_input × List keyboard_event) :=
  modifier_lut.foldlM (modifier_step translate modifiers mod) acc

/-- Body of the slot loop (lines 141-158) for slot index `i`. -/
def slot_step (translate : Nat → Nat) (keyCode : Nat → Nat) (mod : Nat)
    (acc : ps4_input × List keyboard_event) (i : Nat) :
    Option (ps4_input × List keyboard_event) :=
  let key_sym := keyCode i
  if key_sym ≠ acc.1.prev_keys i then do
    let a1 ←
      if acc.1.prev_keys i ≠ 0 then do
        let ks ← ks_write acc.1.keyboard_state (acc.1.prev_keys i) false
        pure ({ acc.1 with keyboard_state := ks },
              acc.2 ++ [⟨false, acc.1.prev_keys i, translate (acc.1.prev_keys i), 0, mod,
                         retro_device.KEYBOARD⟩])
      else pure acc
    let a2 ←
      if key_sym ≠ 0 then do
        let ks ← ks_write a1.1.keyboard_state key_sym true
        pure ({ a1.1 with keyboard_state := ks },
              a1.2 ++ [⟨true, key_sym, translate key_sym, 0, mod, retro_device.KEYBOARD⟩])
      else pure a1
    pure ({ a2.1 with prev_keys := Function.update a2.1.prev_keys i (key_sym % 256) }, a2.2)
  else pure acc

/-- The slot loop `for (i = 0; i < KEYBOARD_MAX_HISTORY; i++)` (lines 139-159). -/
def slot_phase (translate : Nat → Nat) (keyCode : Nat → Nat) (mod : Nat)
    (acc : ps4_input × List keyboard_event) : Option (ps4_input × List keyboard_event) :=
  (List.range KEYBOARD_MAX_HISTORY).foldlM (slot_step translate keyCode mod) acc

/-- Keyboard section of `ps4_input_poll` (lines 114-160): the new state and the
events emitted by this poll, or `none` when an access leaves `keyboard_state`. -/
def ps4_input_poll_keyboard (translate : Nat → Nat) (keyboard_state : SceDbgKeyboardData)
    (ps4 : ps4_input) : Option (ps4_input × List keyboard_event) :=
  let ps4 := { ps4 with keyboard_connected := keyboard_state.connected }
  if ps4.keyboard_connected then
    let modifiers := keyboard_state.modifierKey % 2 ^ 32
    let mod := keyboard_state.modifierKey % 2 ^ 16
    (modifier_phase translate modifiers mod (ps4, [])).bind
      (slot_phase translate keyboard_state.keyCode mod)
  else some (ps4, [])

/-- What the two SDK reads of one `ps4_input_poll` deliver. -/
structure poll_input where
  mouse_ret : Int
  mouse_state : SceMouseData
  keyboard_state : SceDbgKeyboardData

/-- Function `ps4_input_poll`: mouse section, then keyboard section. -/
def ps4_input_poll (translate : Nat → Nat) (F : SceMouseButton) (inp : poll_input)
    (ps4 : ps4_input) : Option (ps4_input × List keyboard_event) :=
  ps4_input_poll_keyboard translate inp.keyboard_state
    (ps4_input_poll_mouse F inp.mouse_ret inp.mouse_state ps4)

/-- A finite sequence of polls: the final state and all events emitted, in order. -/
def poll_seq (translate : Nat → Nat) (F : SceMouseButton) :
    List poll_input → ps4_input × List keyboard_event → Option (ps4_input × List keyboard_event)
  | [], acc => some acc
  | inp :: rest, acc =>
    (ps4_input_poll translate F inp acc.1).bind
      (fun r => poll_seq translate F rest (r.1, acc.2 ++ r.2))

/-- Number of `down` events for scancode `s` in a trace. -/
def downs (tr : List keyboard_event) (s : Nat) : Nat :=
  tr.countP (fun e => e.down && e.key_sym == s)

/-- Number of `up` events for scancode `s` in a trace. -/
def ups (tr : List keyboard_event) (s : Nat) : Nat :=
  tr.countP (fun e => !e.down && e.key_sym == s)

/-! ## `ps4_input_mouse_state` -/

/-- Conversion of a C integer to `int16_t` (two's-complement wrap). -/
def to_int16 (x : Int) : Int := (x + 32768) % 65536 - 32768

/-- The `id` argument of a mouse query, as dispatched by the `switch` of
`ps4_input_mouse_state`: its five case labels, or any other value. -/
inductive retro_device_id_mouse where
  | LEFT
  | RIGHT
  | MIDDLE
  | X
  | Y
  | other
deriving DecidableEq

/-- Function `ps4_input_mouse_state` (lines 165-192); the result is the `int16_t val`. -/
def ps4_input_mouse_state (ps4 : ps4_input) (id : retro_device_id_mouse) (_screen : Bool) : Int :=
  if !ps4.mice_connected then 0
  else
    match id with
    | retro_device_id_mouse.LEFT => to_int16 (if ps4.mouse_button_left then 1 else 0)
    | retro_device_id_mouse.RIGHT => to_int16 (if ps4.mouse_button_right then 1 else 0)
    | retro_device_id_mouse.MIDDLE => to_int16 (if ps4.mouse_button_middle then 1 else 0)
    | retro_device_id_mouse.X => to_int16 ps4.mouse_x
    | retro_device_id_mouse.Y => to_int16 ps4.mouse_y
    | retro_device_id_mouse.other => 0

/-! ## `ps4_input_state`, case `RETRO_DEVICE_JOYPAD` -/

/-- Modelled from the spec: macro `NO_BTN` of `input_defines.h` (not under src/),
the NONE value of a joykey; upstream value `UINT16_C(0xFFFF)`. -/
def NO_BTN : Nat := 0xFFFF

/-- Modelled from the spec: macro `AXIS_NONE` of `input_defines.h` (not under src/),
the NONE value of a joyaxis; upstream value `UINT32_C(0xFFFFFFFF)`. -/
def AXIS_NONE : Nat := 0xFFFFFFFF

/-- Modelled from the spec: enumerator `RARCH_FIRST_CUSTOM_BIND` of
`input_defines.h` (not under src/); the spec fixes FIRST_CUSTOM_BIND = 16. -/
def RARCH_FIRST_CUSTOM_BIND : Nat := 16

/-- Modelled from the spec: macro `RETRO_DEVICE_ID_JOYPAD_MASK` of `libretro.h`
(not under src/), the id of the bitfield query; upstream value 256. -/
def RETRO_DEVICE_ID_JOYPAD_MASK : Nat := 256

/-- The two fields of `struct retro_keybind` the driver reads: `uint64_t joykey`
and `uint32_t joyaxis`. -/
structure retro_keybind where
  joykey : Nat
  joyaxis : Nat

/-- Struct `rarch_joypad_info_t`. `axis_threshold` is a finite `float`; such a value is a
rational number, and `(float)abs(v) / 0x8000` is exact for every 16-bit `v`, so the
comparison of line 223 is the comparison of rationals. -/
structure rarch_joypad_info where
  joy_idx : Nat
  auto_binds : Nat → retro_keybind
  axis_threshold : ℚ

/-- The two function pointers of `input_device_driver_t` used by the query:
`bool button(unsigned, uint16_t)` and `int16_t axis(unsigned, uint32_t)`. -/
structure input_device_driver where
  button : Nat → Nat → Bool
  axis : Nat → Nat → Int

/-- A call made to the joypad sub-driver, with its arguments. -/
inductive joypad_call where
  | button (joy_idx key : Nat)
  | axis (joy_idx joyaxis : Nat)
deriving DecidableEq

/-- The binding resolution and the two checks for bind `i` (lines 213-227, and
with `id` for `i` lines 235-243): whether a check fired, and the sub-driver calls
made, in order. -/
def joypad_bind_state (joypad : input_device_driver) (joypad_info : rarch_joypad_info)
    (binds : Nat → Nat → retro_keybind) (port i : Nat) : Bool × List joypad_call :=
  let joykey := if (binds port i).joykey ≠ NO_BTN then (binds port i).joykey
    else (joypad_info.auto_binds i).joykey
  let joyaxis := if (binds port i).joyaxis ≠ AXIS_NONE then (binds port i).joyaxis
    else (joypad_info.auto_binds i).joyaxis
  let digital : Bool × List joypad_call :=
    if joykey % 2 ^ 16 ≠ NO_BTN then
      (joypad.button joypad_info.joy_idx (joykey % 2 ^ 16),
       [joypad_call.button joypad_info.joy_idx (joykey % 2 ^ 16)])
    else (false, [])
  if digital.1 then (true, digital.2)
  else
    (decide ((((joypad.axis joypad_info.joy_idx joyaxis).natAbs : ℚ) / 0x8000)
        > joypad_info.axis_threshold),
     digital.2 ++ [joypad_call.axis joypad_info.joy_idx joyaxis])

/-- Body of the loop of the bitfield query (lines 211-228). `acc.1` is the bit
pattern of the `int16_t ret`. -/
def joypad_mask_step (joypad : input_device_driver) (joypad_info : rarch_joypad_info)
    (binds : Nat → Nat → retro_keybind) (port : Nat)
    (acc : Nat × List joypad_call) (i : Nat) : Nat × List joypad_call :=
  let c := joypad_bind_state joypad joypad_info binds port i
  (if c.1 then (acc.1 ||| (1 <<< i)) % 2 ^ 16 else acc.1, acc.2 ++ c.2)

/-- Function `ps4_input_state` for `device == RETRO_DEVICE_JOYPAD` (lines 205-245 and the
final `return 0`): the returned `int16_t` and the sub-driver calls made. -/
def ps4_input_state_joypad (joypad : input_device_driver) (joypad_info : rarch_joypad_info)
    (binds : Nat → Nat → retro_keybind) (port id : Nat) : Int × List joypad_call :=
  if id = RETRO_DEVICE_ID_JOYPAD_MASK then
    let r := (List.range RARCH_FIRST_CUSTOM_BIND).foldl
      (joypad_mask_step joypad joypad_info binds port) (0, [])
    (to_int16 r.1, r.2)
  else
    let c := joypad_bind_state joypad joypad_info binds port id
    (if c.1 then 1 else 0, c.2)

/-- The 16 bits of an `int16_t` value, as a natural number. -/
def bits16 (r : Int) : Nat := (r % 65536).toNat

/-- The binding fallback rule in the words of the spec, for the joykey: the user
entry `binds[port][i].joykey` when it is not NO_BTN, otherwise the auto entry. -/
def spec_resolved_joykey (joypad_info : rarch_joypad_info) (binds : Nat → Nat → retro_keybind)
    (port i : Nat) : Nat :=
  if (binds port i).joykey = NO_BTN then (joypad_info.auto_binds i).joykey
  else (binds port i).joykey

/-- The binding fallback rule in the words of the spec, for the joyaxis: the user
entry `binds[port][i].joyaxis` when it is not AXIS_NONE, otherwise the auto entry. -/
def spec_resolved_joyaxis (joypad_info : rarch_joypad_info) (binds : Nat → Nat → retro_keybind)
    (port i : Nat) : Nat :=
  if (binds port i).joyaxis = AXIS_NONE then (joypad_info.auto_binds i).joyaxis
  else (binds port i).joyaxis

/-- The two checks of the spec for bind `i`: the resolved joykey, as the 16-bit
button id given to the sub-driver, is not NO_BTN and that button is held, or
`|axis(resolved joyaxis)| / 0x8000 > axis_threshold`. -/
def spec_bind_hit (joypad : input_device_driver) (joypad_info : rarch_joypad_info)
    (binds : Nat → Nat → retro_keybind) (port i : Nat) : Prop :=
  (spec_resolved_joykey joypad_info binds port i % 2 ^ 16 ≠ NO_BTN ∧
    joypad.button joypad_info.joy_idx (spec_resolved_joykey joypad_info binds port i % 2 ^ 16)
      = true) ∨
  (((joypad.axis joypad_info.joy_idx (spec_resolved_joyaxis joypad_info binds port i)).natAbs : ℚ)
      / 0x8000 > joypad_info.axis_threshold)

/-! ## Well-formed snapshot sequences -/

/-- A connected snapshot `keyCode` arriving when the previous slots are `prev`:
every slot value is inside `keyboard_state` and outside `modifier_lut`, no nonzero
scancode occupies two slots, and no nonzero scancode sits at an index lower than
one where `prev` holds it. -/
def snapshot_ok (prev keyCode : Nat → Nat) : Prop :=
  ∀ i < KEYBOARD_MAX_HISTORY,
    keyCode i ≤ PS4_MAX_SCANCODE ∧ is_modifier (keyCode i) = false ∧
    (keyCode i ≠ 0 →
      (∀ j < i, keyCode j ≠ keyCode i) ∧
      (∀ j < KEYBOARD_MAX_HISTORY, i < j → prev j ≠ keyCode i))

/-- Every connected snapshot of the sequence is `snapshot_ok` with respect to the
slots of the connected snapshot before it (`prev` at the start). -/
def polls_ok : (Nat → Nat) → List poll_input → Prop
  | _, [] => True
  | prev, inp :: rest =>
    if inp.keyboard_state.connected then
      snapshot_ok prev inp.keyboard_state.keyCode ∧ polls_ok inp.keyboard_state.keyCode rest
    else polls_ok prev rest

instance snapshot_ok_decidable (prev keyCode : Nat → Nat) :
    Decidable (snapshot_ok prev keyCode) :=
  inferInstanceAs (Decidable (∀ i < KEYBOARD_MAX_HISTORY,
    keyCode i ≤ PS4_MAX_SCANCODE ∧ is_modifier (keyCode i) = false ∧
    (keyCode i ≠ 0 →
      (∀ j < i, keyCode j ≠ keyCode i) ∧
      (∀ j < KEYBOARD_MAX_HISTORY, i < j → prev j ≠ keyCode i))))

instance polls_ok_decidable :
    (prev : Nat → Nat) → (inputs : List poll_input) → Decidable (polls_ok prev inputs)
  | _, [] => isTrue True.intro
  | prev, inp :: rest =>
    haveI := polls_ok_decidable prev rest
    haveI := polls_ok_decidable inp.keyboard_state.keyCode rest
    inferInstanceAs (Decidable (if inp.keyboard_state.connected then
      snapshot_ok prev inp.keyboard_state.keyCode ∧ polls_ok inp.keyboard_state.keyCode rest
      else polls_ok prev rest))

/-- The invariant of the edge detector on well-formed snapshot sequences. -/
structure kbd_inv (st : ps4_input) (tr : List keyboard_event) : Prop where
  zero : st.keyboard_state 0 = false
  slot_range : ∀ i < KEYBOARD_MAX_HISTORY,
    st.prev_keys i ≤ PS4_MAX_SCANCODE ∧ is_modifier (st.prev_keys i) = false
  slot_pressed : ∀ i < KEYBOARD_MAX_HISTORY,
    st.prev_keys i ≠ 0 → st.keyboard_state (st.prev_keys i) = true
  slot_distinct : ∀ i < KEYBOARD_MAX_HISTORY, ∀ j < KEYBOARD_MAX_HISTORY,
    i ≠ j → st.prev_keys i ≠ 0 → st.prev_keys i ≠ st.prev_keys j
  pressed_origin : ∀ s, st.keyboard_state s = true →
    is_modifier s = true ∨ ∃ i < KEYBOARD_MAX_HISTORY, st.prev_keys i = s
  net : ∀ s, (downs tr s : Int) - (ups tr s : Int) = if st.keyboard_state s then 1 else 0

/-- Loop invariant of the slot loop before round `i`, for the events `pre` emitted
before this poll's slot phase output `acc.2`: the detector invariant holds, slots
below `i` hold the snapshot and the others still hold `prev0`. -/
def slot_loop_inv (pre : List keyboard_event) (prev0 keyCode : Nat → Nat) (i : Nat)
    (acc : ps4_input × List keyboard_event) : Prop :=
  kbd_inv acc.1 (pre ++ acc.2) ∧
  (∀ j < i, acc.1.prev_keys j = keyCode j) ∧
  (∀ j, i ≤ j → j < KEYBOARD_MAX_HISTORY → acc.1.prev_keys j = prev0 j)


/-! ## `ps4_input_state`, case `RETRO_DEVICE_KEYBOARD` -/

/-- Function `ps4_input_state` for `device == RETRO_DEVICE_KEYBOARD` (line 252): the
returned `int16_t`, or `none` when the read leaves `keyboard_state`. The enumerator
`RETROK_LAST` of `libretro.h` and the table `rarch_keysym_lut` of
`input_keymaps.c` live outside `ps4_input.c` and are parameters. -/
def ps4_input_state_keyboard (RETROK_LAST : Nat) (rarch_keysym_lut : Nat → Nat)
    (ps4 : ps4_input) (id : Nat) : Option Int :=
  if id < RETROK_LAST then
    (ks_read ps4.keyboard_state (rarch_keysym_lut id)).map
      (fun pressed => if pressed then 1 else 0)
  else some 0

/-! ## The two phases in the words of the spec -/

/-- The edge of the spec for one `modifier_lut` row `e = (scancode, bit)` under the
modifier mask `m`: none when `(m & bit) != 0` agrees with `pressed[scancode]`,
otherwise down if the bit is set and up if not, with the translated key id and the
mask truncated to 16 bits. -/
def spec_modifier_edge (translate : Nat → Nat) (m : Nat) (pressed : Nat → Bool)
    (e : Nat × Nat) : Option keyboard_event :=
  if decide (m &&& e.2 ≠ 0) = pressed e.1 then none
  else some ⟨decide (m &&& e.2 ≠ 0), e.1, translate e.1, 0, m % 2 ^ 16, retro_device.KEYBOARD⟩

/-- The events of the modifier phase in the words of the spec: the edges of the 11
rows, in declared order. -/
def spec_modifier_events (translate : Nat → Nat) (m : Nat) (pressed : Nat → Bool) :
    List keyboard_event :=
  modifier_lut.filterMap (spec_modifier_edge translate m pressed)

/-- The events of the spec for slot `i`: nothing when `cur == prev`, otherwise
up(translate(prev)) if `prev != 0` followed by down(translate(cur)) if `cur != 0`. -/
def spec_slot_edges (translate : Nat → Nat) (slots prev_slots : Nat → Nat) (m : Nat)
    (i : Nat) : List keyboard_event :=
  if slots i = prev_slots i then []
  else
    (if prev_slots i = 0 then []
     else [⟨false, prev_slots i, translate (prev_slots i), 0, m % 2 ^ 16,
            retro_device.KEYBOARD⟩]) ++
    (if slots i = 0 then []
     else [⟨true, slots i, translate (slots i), 0, m % 2 ^ 16, retro_device.KEYBOARD⟩])

/-- The events of the slot phase in the words of the spec, for slot index ascending
from 0 to 5. -/
def spec_slot_events (translate : Nat → Nat) (slots prev_slots : Nat → Nat) (m : Nat) :
    List keyboard_event :=
  (List.range KEYBOARD_MAX_HISTORY).flatMap (spec_slot_edges translate slots prev_slots m)

/-- Scancode `s` occurs in the slots of a snapshot; 0 marks an empty slot and is
no occurrence of a scancode. -/
def slot_holds (keyCode : Nat → Nat) (s : Nat) : Prop :=
  s ≠ 0 ∧ ∃ i < KEYBOARD_MAX_HISTORY, keyCode i = s

/-! ## Snapshot sequences of normal use and of in-range slots -/

/-- A snapshot of normal use arriving when the previous slots are `prev`: every
slot value is <= 0xE7 and no `modifier_lut` scancode, no nonzero scancode occurs
twice, and no nonzero scancode sits at an index different from the index where
`prev` holds it. -/
def normal_snapshot (prev keyCode : Nat → Nat) : Prop :=
  ∀ i < KEYBOARD_MAX_HISTORY,
    keyCode i ≤ PS4_MAX_SCANCODE ∧ is_modifier (keyCode i) = false ∧
    (keyCode i ≠ 0 →
      ∀ j < KEYBOARD_MAX_HISTORY, j ≠ i → keyCode j ≠ keyCode i ∧ prev j ≠ keyCode i)

/-- A sequence of connected polls, each a `normal_snapshot` with respect to the
snapshot before it (`prev` at the start). -/
def normal_polls : (Nat → Nat) → List poll_input → Prop
  | _, [] => True
  | prev, inp :: rest =>
    inp.keyboard_state.connected = true ∧
    normal_snapshot prev inp.keyboard_state.keyCode ∧
    normal_polls inp.keyboard_state.keyCode rest

instance normal_snapshot_decidable (prev keyCode : Nat → Nat) :
    Decidable (normal_snapshot prev keyCode) :=
  inferInstanceAs (Decidable (∀ i < KEYBOARD_MAX_HISTORY,
    keyCode i ≤ PS4_MAX_SCANCODE ∧ is_modifier (keyCode i) = false ∧
    (keyCode i ≠ 0 →
      ∀ j < KEYBOARD_MAX_HISTORY, j ≠ i → keyCode j ≠ keyCode i ∧ prev j ≠ keyCode i)))

instance normal_polls_decidable :
    (prev : Nat → Nat) → (inputs : List poll_input) → Decidable (normal_polls prev inputs)
  | _, [] => isTrue True.intro
  | prev, inp :: rest =>
    haveI := normal_polls_decidable inp.keyboard_state.keyCode rest
    inferInstanceAs (Decidable (inp.keyboard_state.connected = true ∧
      normal_snapshot prev inp.keyboard_state.keyCode ∧
      normal_polls inp.keyboard_state.keyCode rest))

/-- Every connected snapshot of the sequence has all six slot values <= 0xE7. -/
def slots_in_range (inputs : List poll_input) : Prop :=
  ∀ inp ∈ inputs, inp.keyboard_state.connected = true →
    ∀ i < KEYBOARD_MAX_HISTORY, inp.keyboard_state.keyCode i ≤ PS4_MAX_SCANCODE

instance slots_in_range_decidable (inputs : List poll_input) :
    Decidable (slots_in_range inputs) :=
  inferInstanceAs (Decidable (∀ inp ∈ inputs, inp.keyboard_state.connected = true →
    ∀ i < KEYBOARD_MAX_HISTORY, inp.keyboard_state.keyCode i ≤ PS4_MAX_SCANCODE))


/-! ## Theorems: mouse latch -/

theorem to_int16_of_range (x : Int) (h1 : -32768 ≤ x) (h2 : x ≤ 32767) : to_int16 x = x := by
  unfold to_int16; omega

theorem to_int16_bool (b : Bool) : to_int16 (if b then 1 else 0) = if b then 1 else 0 := by
  cases b <;> decide

theorem or_and_self_left (a b : Nat) : (a ||| b) &&& a = a := by
  apply Nat.eq_of_testBit_eq
  intro i
  simp only [Nat.testBit_and, Nat.testBit_or]
  cases a.testBit i <;> simp

theorem poll_mouse_keyboard_state (F : SceMouseButton) (ret : Int) (ms : SceMouseData)
    (st : ps4_input) : (ps4_input_poll_mouse F ret ms st).keyboard_state = st.keyboard_state := by
  unfold ps4_input_poll_mouse
  dsimp only
  split <;> rfl

theorem poll_mouse_prev_keys (F : SceMouseButton) (ret : Int) (ms : SceMouseData)
    (st : ps4_input) : (ps4_input_poll_mouse F ret ms st).prev_keys = st.prev_keys := by
  unfold ps4_input_poll_mouse
  dsimp only
  split <;> rfl

/-- The mouse section when the update is gated off: only `mice_connected`,
`mouse_x` and `mouse_y` are written. -/
theorem poll_mouse_gated (F : SceMouseButton) (ret : Int) (ms : SceMouseData) (st : ps4_input)
    (h : ret ≤ 0 ∨ ms.connected = false ∨ ms.buttons &&& F.INTERCEPTED ≠ 0) :
    ps4_input_poll_mouse F ret ms st =
      { st with mice_connected := ms.connected, mouse_x := 0, mouse_y := 0 } := by
  have hc : ¬ (0 < ret ∧ ms.connected = true ∧ ms.buttons &&& F.INTERCEPTED = 0) := by
    rintro ⟨h1, h2, h3⟩
    rcases h with h | h | h
    · omega
    · simp [h] at h2
    · exact h h3
  simp only [ps4_input_poll_mouse, hc, if_false]

/-- The mouse section when the snapshot is taken over. -/
theorem poll_mouse_fresh (F : SceMouseButton) (ret : Int) (ms : SceMouseData) (st : ps4_input)
    (h1 : 0 < ret) (h2 : ms.connected = true) (h3 : ms.buttons &&& F.INTERCEPTED = 0) :
    ps4_input_poll_mouse F ret ms st =
      { st with
        mice_connected := true
        mouse_button_left := decide (ms.buttons &&& F.PRIMARY ≠ 0)
        mouse_button_right := decide (ms.buttons &&& F.SECONDARY ≠ 0)
        mouse_button_middle := decide (ms.buttons &&& F.OPTIONAL ≠ 0)
        mouse_x := ms.xAxis
        mouse_y := ms.yAxis } := by
  have hc : 0 < ret ∧ ms.connected = true ∧ ms.buttons &&& F.INTERCEPTED = 0 := ⟨h1, h2, h3⟩
  simp only [ps4_input_poll_mouse, hc, and_self, if_true, h2]

/-- C6, counterexample: after a poll that latched a held primary button, a connected
snapshot carrying INTERCEPTED leaves the LEFT query at 1. -/
theorem C6_intercepted_left_counterexample :
    ps4_input_mouse_state
      (ps4_input_poll_mouse ⟨1, 2, 4, 0x80000000⟩ 1 ⟨true, 0x80000001, 10, -3⟩
        (ps4_input_poll_mouse ⟨1, 2, 4, 0x80000000⟩ 1 ⟨true, 0x01, 0, 0⟩ ps4_input_initialize))
      retro_device_id_mouse.LEFT false = 1 := by
  decide

/-- C6, amended: when the snapshot carries INTERCEPTED or is not connected, the X
and Y queries return 0; LEFT, RIGHT and MIDDLE return 0 when the snapshot is not
connected, and otherwise the button values latched before the poll. -/
theorem C6_mouse_gating (F : SceMouseButton) (ret : Int) (ms : SceMouseData) (st : ps4_input)
    (h : ms.buttons &&& F.INTERCEPTED ≠ 0 ∨ ms.connected = false) :
    ps4_input_mouse_state (ps4_input_poll_mouse F ret ms st) retro_device_id_mouse.X false = 0 ∧
    ps4_input_mouse_state (ps4_input_poll_mouse F ret ms st) retro_device_id_mouse.Y false = 0 ∧
    (ms.connected = false →
      ps4_input_mouse_state (ps4_input_poll_mouse F ret ms st) retro_device_id_mouse.LEFT false = 0 ∧
      ps4_input_mouse_state (ps4_input_poll_mouse F ret ms st) retro_device_id_mouse.RIGHT false = 0 ∧
      ps4_input_mouse_state (ps4_input_poll_mouse F ret ms st) retro_device_id_mouse.MIDDLE false
        = 0) ∧
    (ms.connected = true →
      ps4_input_mouse_state (ps4_input_poll_mouse F ret ms st) retro_device_id_mouse.LEFT false
        = (if st.mouse_button_left then 1 else 0) ∧
      ps4_input_mouse_state (ps4_input_poll_mouse F ret ms st) retro_device_id_mouse.RIGHT false
        = (if st.mouse_button_right then 1 else 0) ∧
      ps4_input_mouse_state (ps4_input_poll_mouse F ret ms st) retro_device_id_mouse.MIDDLE false
        = (if st.mouse_button_middle then 1 else 0)) := by
  have hg : ret ≤ 0 ∨ ms.connected = false ∨ ms.buttons &&& F.INTERCEPTED ≠ 0 := by
    rcases h with h | h
    · exact Or.inr (Or.inr h)
    · exact Or.inr (Or.inl h)
  rw [poll_mouse_gated F ret ms st hg]
  have hz : to_int16 0 = 0 := by decide
  refine ⟨?_, ?_, ?_, ?_⟩
  · cases hc : ms.connected <;> simp [ps4_input_mouse_state, hc, hz]
  · cases hc : ms.connected <;> simp [ps4_input_mouse_state, hc, hz]
  · intro hc
    simp [ps4_input_mouse_state, hc]
  · intro hc
    simp [ps4_input_mouse_state, hc, to_int16_bool]

/-- Instance of C6 at an intercepted snapshot of a connected mouse. -/
theorem C6_mouse_gating_witness :
    ps4_input_mouse_state (ps4_input_poll_mouse ⟨1, 2, 4, 0x80000000⟩ 1 ⟨true, 0x80000001, 10, -3⟩
        ps4_input_initialize) retro_device_id_mouse.Y false = 0 :=
  (C6_mouse_gating ⟨1, 2, 4, 0x80000000⟩ 1 ⟨true, 0x80000001, 10, -3⟩ ps4_input_initialize
    (Or.inl (by decide))).2.1

/-- C7: when the read failed, the snapshot is not connected, or its buttons carry
INTERCEPTED, the poll leaves `mouse_x = mouse_y = 0` and the three button latches
at their previous values; with buttons = INTERCEPTED|PRIMARY, xAxis = 10,
yAxis = -3 and connected = true the X query returns 0 and the LEFT query returns
the previous left value, which is 0 right after `ps4_input_initialize`. -/
theorem C7_mouse_latch_when_gated (F : SceMouseButton) (ret : Int) (ms : SceMouseData)
    (st : ps4_input)
    (h : ret ≤ 0 ∨ ms.connected = false ∨ ms.buttons &&& F.INTERCEPTED ≠ 0) :
    ((ps4_input_poll_mouse F ret ms st).mouse_x = 0 ∧
     (ps4_input_poll_mouse F ret ms st).mouse_y = 0 ∧
     (ps4_input_poll_mouse F ret ms st).mouse_button_left = st.mouse_button_left ∧
     (ps4_input_poll_mouse F ret ms st).mouse_button_right = st.mouse_button_right ∧
     (ps4_input_poll_mouse F ret ms st).mouse_button_middle = st.mouse_button_middle) ∧
    (F.INTERCEPTED ≠ 0 →
      ps4_input_mouse_state
          (ps4_input_poll_mouse F ret ⟨true, F.INTERCEPTED ||| F.PRIMARY, 10, -3⟩ st)
          retro_device_id_mouse.X false = 0 ∧
      ps4_input_mouse_state
          (ps4_input_poll_mouse F ret ⟨true, F.INTERCEPTED ||| F.PRIMARY, 10, -3⟩ st)
          retro_device_id_mouse.LEFT false = (if st.mouse_button_left then 1 else 0) ∧
      ps4_input_mouse_state
          (ps4_input_poll_mouse F ret ⟨true, F.INTERCEPTED ||| F.PRIMARY, 10, -3⟩
            ps4_input_initialize)
          retro_device_id_mouse.LEFT false = 0) := by
  constructor
  · rw [poll_mouse_gated F ret ms st h]
    exact ⟨rfl, rfl, rfl, rfl, rfl⟩
  · intro hI
    have hg : ∀ s : ps4_input,
        ps4_input_poll_mouse F ret ⟨true, F.INTERCEPTED ||| F.PRIMARY, 10, -3⟩ s =
          { s with mice_connected := true, mouse_x := 0, mouse_y := 0 } := by
      intro s
      apply poll_mouse_gated
      right; right
      show (F.INTERCEPTED ||| F.PRIMARY) &&& F.INTERCEPTED ≠ 0
      rw [or_and_self_left]
      exact hI
    rw [hg st, hg ps4_input_initialize]
    refine ⟨?_, ?_, ?_⟩
    · simp [ps4_input_mouse_state]; decide
    · simp [ps4_input_mouse_state, to_int16_bool]
    · simp [ps4_input_mouse_state, ps4_input_initialize]; decide

/-- Instance of C7 at scenario S4 on the first frame. -/
theorem C7_mouse_latch_when_gated_witness :
    ps4_input_mouse_state
        (ps4_input_poll_mouse ⟨1, 2, 4, 0x80000000⟩ 1 ⟨true, 0x80000000 ||| 1, 10, -3⟩
          ps4_input_initialize)
        retro_device_id_mouse.X false = 0 ∧
    ps4_input_mouse_state
        (ps4_input_poll_mouse ⟨1, 2, 4, 0x80000000⟩ 1 ⟨true, 0x80000000 ||| 1, 10, -3⟩
          ps4_input_initialize)
        retro_device_id_mouse.LEFT false = 0 :=
  ⟨((C7_mouse_latch_when_gated ⟨1, 2, 4, 0x80000000⟩ 1 ⟨true, 0x80000000 ||| 1, 10, -3⟩
      ps4_input_initialize (Or.inr (Or.inr (by decide)))).2 (by decide)).1,
   ((C7_mouse_latch_when_gated ⟨1, 2, 4, 0x80000000⟩ 1 ⟨true, 0x80000000 ||| 1, 10, -3⟩
      ps4_input_initialize (Or.inr (Or.inr (by decide)))).2 (by decide)).2.2⟩

/-- C8, counterexample: a fresh connected snapshot with xAxis = 32768 makes the X
query return -32768, not the snapshot's xAxis. -/
theorem C8_axis_wrap_counterexample :
    ps4_input_mouse_state
      (ps4_input_poll_mouse ⟨1, 2, 4, 0x80000000⟩ 1 ⟨true, 0, 32768, 0⟩ ps4_input_initialize)
      retro_device_id_mouse.X false = -32768 := by
  decide

/-- C8, amended: for a snapshot read successfully, connected and without
INTERCEPTED, LEFT, RIGHT and MIDDLE return 1 exactly when the PRIMARY, SECONDARY,
OPTIONAL bit is set (else 0), and X and Y return xAxis and yAxis converted to
`int16_t`, which is the snapshot's value whenever that lies in -32768..32767. -/
theorem C8_mouse_fresh_snapshot (F : SceMouseButton) (ret : Int) (ms : SceMouseData)
    (st : ps4_input)
    (h1 : 0 < ret) (h2 : ms.connected = true) (h3 : ms.buttons &&& F.INTERCEPTED = 0) :
    ps4_input_mouse_state (ps4_input_poll_mouse F ret ms st) retro_device_id_mouse.LEFT false
      = (if ms.buttons &&& F.PRIMARY ≠ 0 then 1 else 0) ∧
    ps4_input_mouse_state (ps4_input_poll_mouse F ret ms st) retro_device_id_mouse.RIGHT false
      = (if ms.buttons &&& F.SECONDARY ≠ 0 then 1 else 0) ∧
    ps4_input_mouse_state (ps4_input_poll_mouse F ret ms st) retro_device_id_mouse.MIDDLE false
      = (if ms.buttons &&& F.OPTIONAL ≠ 0 then 1 else 0) ∧
    ps4_input_mouse_state (ps4_input_poll_mouse F ret ms st) retro_device_id_mouse.X false
      = to_int16 ms.xAxis ∧
    ps4_input_mouse_state (ps4_input_poll_mouse F ret ms st) retro_device_id_mouse.Y false
      = to_int16 ms.yAxis ∧
    (-32768 ≤ ms.xAxis → ms.xAxis ≤ 32767 →
      ps4_input_mouse_state (ps4_input_poll_mouse F ret ms st) retro_device_id_mouse.X false
        = ms.xAxis) ∧
    (-32768 ≤ ms.yAxis → ms.yAxis ≤ 32767 →
      ps4_input_mouse_state (ps4_input_poll_mouse F ret ms st) retro_device_id_mouse.Y false
        = ms.yAxis) := by
  rw [poll_mouse_fresh F ret ms st h1 h2 h3]
  have hb : ∀ p : Prop, [Decidable p] →
      to_int16 (if decide p = true then 1 else 0) = if p then 1 else 0 := by
    intro p _
    by_cases hp : p <;> simp [hp] <;> decide
  refine ⟨?_, ?_, ?_, ?_, ?_, ?_, ?_⟩
  · simp only [ps4_input_mouse_state, Bool.not_true, Bool.false_eq_true, if_false]
    exact hb _
  · simp only [ps4_input_mouse_state, Bool.not_true, Bool.false_eq_true, if_false]
    exact hb _
  · simp only [ps4_input_mouse_state, Bool.not_true, Bool.false_eq_true, if_false]
    exact hb _
  · simp [ps4_input_mouse_state]
  · simp [ps4_input_mouse_state]
  · intro ha hb'
    simp [ps4_input_mouse_state, to_int16_of_range _ ha hb']
  · intro ha hb'
    simp [ps4_input_mouse_state, to_int16_of_range _ ha hb']

/-- Instance of C8 at buttons = PRIMARY|OPTIONAL, xAxis = 10, yAxis = -3. -/
theorem C8_mouse_fresh_snapshot_witness :
    ps4_input_mouse_state
      (ps4_input_poll_mouse ⟨1, 2, 4, 0x80000000⟩ 1 ⟨true, 0x05, 10, -3⟩ ps4_input_initialize)
      retro_device_id_mouse.Y false = -3 :=
  (C8_mouse_fresh_snapshot ⟨1, 2, 4, 0x80000000⟩ 1 ⟨true, 0x05, 10, -3⟩ ps4_input_initialize
    (by decide) rfl (by decide)).2.2.2.2.2.2 (by decide) (by decide)

/-- The state after a poll whose keyboard snapshot is not connected. -/
theorem poll_disconnected (translate : Nat → Nat) (F : SceMouseButton) (inp : poll_input)
    (st : ps4_input) (h : inp.keyboard_state.connected = false) :
    ps4_input_poll translate F inp st =
      some ({ ps4_input_poll_mouse F inp.mouse_ret inp.mouse_state st with
              keyboard_connected := false }, []) := by
  simp [ps4_input_poll, ps4_input_poll_keyboard, h]

theorem poll_mouse_idem (F : SceMouseButton) (ret : Int) (ms : SceMouseData) (st : ps4_input) :
    ps4_input_poll_mouse F ret ms
      { ps4_input_poll_mouse F ret ms st with keyboard_connected := false }
    = { ps4_input_poll_mouse F ret ms st with keyboard_connected := false } := by
  unfold ps4_input_poll_mouse
  dsimp only
  split <;> rfl

/-- C5: when the snapshot's connected flag is false, `ps4_input_poll` emits no
keyboard event and leaves `keyboard_state` and `prev_keys` unchanged, whatever the
modifier mask and slots are; polling such a snapshot any number of times gives the
same state (and trace) as polling it once. -/
theorem C5_disconnected_poll (translate : Nat → Nat) (F : SceMouseButton) (inp : poll_input)
    (st : ps4_input) (h : inp.keyboard_state.connected = false) :
    (∃ st', ps4_input_poll translate F inp st = some (st', []) ∧
      st'.keyboard_state = st.keyboard_state ∧ st'.prev_keys = st.prev_keys) ∧
    ∀ (n : Nat) (tr : List keyboard_event),
      poll_seq translate F (List.replicate (n + 1) inp) (st, tr)
        = poll_seq translate F [inp] (st, tr) := by
  constructor
  · exact ⟨_, poll_disconnected translate F inp st h, poll_mouse_keyboard_state F _ _ st,
      poll_mouse_prev_keys F _ _ st⟩
  · intro n
    induction n with
    | zero => intro tr; rfl
    | succ k ih =>
      intro tr
      have e := ih tr
      rw [List.replicate_succ, poll_seq, poll_disconnected translate F inp st h] at e ⊢
      simp only [Option.some_bind, List.append_nil] at e ⊢
      rw [List.replicate_succ, poll_seq, poll_disconnected translate F inp _ h]
      simp only [Option.some_bind, List.append_nil, poll_mouse_idem]
      exact e

/-- Instance of C5 at a disconnected snapshot with mask 0x01 and slots [4, 5]. -/
theorem C5_disconnected_poll_witness :
    (∃ st', ps4_input_poll id ⟨1, 2, 4, 0x80000000⟩
        ⟨0, ⟨false, 0, 0, 0⟩, ⟨false, 0x01, cells [4, 5]⟩⟩ ps4_input_initialize = some (st', []) ∧
      st'.keyboard_state = ps4_input_initialize.keyboard_state ∧
      st'.prev_keys = ps4_input_initialize.prev_keys) ∧
    ∀ (n : Nat) (tr : List keyboard_event),
      poll_seq id ⟨1, 2, 4, 0x80000000⟩
          (List.replicate (n + 1) ⟨0, ⟨false, 0, 0, 0⟩, ⟨false, 0x01, cells [4, 5]⟩⟩)
          ( ps4_input_initialize, tr)
        = poll_seq id ⟨1, 2, 4, 0x80000000⟩ [⟨0, ⟨false, 0, 0, 0⟩, ⟨false, 0x01, cells [4, 5]⟩⟩]
          ( ps4_input_initialize, tr) :=
  C5_disconnected_poll id ⟨1, 2, 4, 0x80000000⟩
    ⟨0, ⟨false, 0, 0, 0⟩, ⟨false, 0x01, cells [4, 5]⟩⟩ ps4_input_initialize rfl

/-! ## Theorems: keyboard edge detector -/

/-- One row of the modifier loop, for a scancode inside the array: nothing happens
when the mask bit agrees with `keyboard_state`, otherwise the cell is set to the
bit and the matching edge is emitted. -/
theorem modifier_step_eq (translate : Nat → Nat) (modifiers mod : Nat) (st : ps4_input)
    (tr : List keyboard_event) (k b : Nat) (hk : k ≤ PS4_MAX_SCANCODE) :
    modifier_step translate modifiers mod (st, tr) (k, b) =
      some (if decide (modifiers &&& b ≠ 0) = st.keyboard_state k then (st, tr)
        else ({ st with keyboard_state :=
                  Function.update st.keyboard_state k (decide (modifiers &&& b ≠ 0)) },
              tr ++ [⟨decide (modifiers &&& b ≠ 0), k, translate k, 0, mod,
                      retro_device.KEYBOARD⟩])) := by
  simp only [modifier_step, ks_read, ks_write, hk, if_true]
  cases h1 : decide (modifiers &&& b ≠ 0) <;> cases h2 : st.keyboard_state k <;>
    simp [h1, h2]

/-- One round of the slot loop when both scancodes involved are inside the array. -/
theorem slot_step_eq (translate : Nat → Nat) (keyCode : Nat → Nat) (mod : Nat) (st : ps4_input)
    (tr : List keyboard_event) (i : Nat) (hp : st.prev_keys i ≤ PS4_MAX_SCANCODE)
    (hc : keyCode i ≤ PS4_MAX_SCANCODE) :
    slot_step translate keyCode mod (st, tr) i =
      some (if keyCode i = st.prev_keys i then (st, tr)
        else
          ({ st with
             keyboard_state :=
               (fun ks1 => if keyCode i ≠ 0 then Function.update ks1 (keyCode i) true else ks1)
                 (if st.prev_keys i ≠ 0 then Function.update st.keyboard_state (st.prev_keys i) false
                  else st.keyboard_state)
             prev_keys := Function.update st.prev_keys i (keyCode i) },
           tr ++ (if st.prev_keys i ≠ 0 then
                    [⟨false, st.prev_keys i, translate (st.prev_keys i), 0, mod,
                      retro_device.KEYBOARD⟩] else [])
              ++ (if keyCode i ≠ 0 then
                    [⟨true, keyCode i, translate (keyCode i), 0, mod, retro_device.KEYBOARD⟩]
                  else []))) := by
  have h256 : keyCode i % 256 = keyCode i := by
    unfold PS4_MAX_SCANCODE at hc; omega
  by_cases h1 : keyCode i = st.prev_keys i
  · simp [slot_step, h1]
  · simp only [slot_step, ne_eq, h1, not_false_eq_true, if_true, if_false, h256]
    by_cases h2 : st.prev_keys i = 0 <;> by_cases h3 : keyCode i = 0 <;>
      simp [ks_write, h2, h3, hp, hc]

theorem modifier_lut_length : modifier_lut.length = PS4_NUM_MODIFIERS := rfl

theorem modifier_lut_entries :
    ∀ e ∈ modifier_lut, e.1 ≤ PS4_MAX_SCANCODE ∧ is_modifier e.1 = true ∧ e.1 ≠ 0 := by
  decide

theorem net_append_one (tr : List keyboard_event) (e : keyboard_event) (s : Nat) :
    ((downs (tr ++ [e]) s : Int) - (ups (tr ++ [e]) s : Int)) =
      ((downs tr s : Int) - (ups tr s : Int)) +
        (if e.key_sym = s then (if e.down then 1 else -1) else 0) := by
  unfold downs ups
  rw [List.countP_append, List.countP_append]
  by_cases h : e.key_sym = s <;> cases hd : e.down <;>
    simp [List.countP_cons, h, hd] <;> omega

/-- Loop rule for a fallible fold over a table. -/
theorem foldlM_inv {σ α : Type} (f : σ → α → Option σ) (P : σ → Prop) (l : List α)
    (hstep : ∀ a ∈ l, ∀ s, P s → ∃ s', f s a = some s' ∧ P s') :
    ∀ s, P s → ∃ s', l.foldlM f s = some s' ∧ P s' := by
  induction l with
  | nil => intro s hs; exact ⟨s, rfl, hs⟩
  | cons a t ih =>
    intro s hs
    obtain ⟨s1, e1, p1⟩ := hstep a (List.mem_cons_self a t) s hs
    obtain ⟨s2, e2, p2⟩ := ih (fun b hb => hstep b (List.mem_cons_of_mem a hb)) s1 p1
    refine ⟨s2, ?_, p2⟩
    rw [List.foldlM_cons, e1]
    exact e2

/-- Loop rule for a fallible counted loop `for (i = 0; i < n; i++)`. -/
theorem foldlM_range_inv {σ : Type} (f : σ → Nat → Option σ) (P : Nat → σ → Prop) (n : Nat)
    (hstep : ∀ i < n, ∀ s, P i s → ∃ s', f s i = some s' ∧ P (i + 1) s') :
    ∀ s, P 0 s → ∃ s', (List.range n).foldlM f s = some s' ∧ P n s' := by
  induction n with
  | zero => intro s hs; exact ⟨s, rfl, hs⟩
  | succ k ih =>
    intro s hs
    obtain ⟨s1, e1, p1⟩ := ih (fun i hi => hstep i (Nat.lt_succ_of_lt hi)) s hs
    obtain ⟨s2, e2, p2⟩ := hstep k (Nat.lt_succ_self k) s1 p1
    refine ⟨s2, ?_, p2⟩
    rw [List.range_succ, List.foldlM_append, e1]
    simpa using e2

theorem kbd_inv_initialize : kbd_inv ps4_input_initialize [] := by
  refine ⟨rfl, ?_, ?_, ?_, ?_, ?_⟩
  · intro i _
    exact ⟨show (0 : Nat) ≤ PS4_MAX_SCANCODE by decide, show is_modifier 0 = false by decide⟩
  · intro i _ h; exact absurd rfl h
  · intro i _ j _ _ h; exact absurd rfl h
  · intro s h; simp [ ps4_input_initialize] at h
  · intro s; simp [downs, ups, ps4_input_initialize]

/-- One row of the modifier loop never leaves the array and keeps the invariant. -/
theorem modifier_step_inv (translate : Nat → Nat) (modifiers mod : Nat)
    (pre : List keyboard_event) (e : Nat × Nat) (he : e ∈ modifier_lut)
    (acc : ps4_input × List keyboard_event) (hinv : kbd_inv acc.1 (pre ++ acc.2)) :
    ∃ acc', modifier_step translate modifiers mod acc e = some acc' ∧
      kbd_inv acc'.1 (pre ++ acc'.2) ∧ acc'.1.prev_keys = acc.1.prev_keys := by
  obtain ⟨st, tr⟩ := acc
  obtain ⟨k, b⟩ := e
  obtain ⟨hk, hm, hk0⟩ := modifier_lut_entries (k, b) he
  simp only at hk hm hk0 hinv
  refine ⟨_, modifier_step_eq translate modifiers mod st tr k b hk, ?_⟩
  by_cases hsame : decide (modifiers &&& b ≠ 0) = st.keyboard_state k
  · rw [if_pos hsame]; exact ⟨hinv, rfl⟩
  · rw [if_neg hsame]
    refine ⟨?_, rfl⟩
    have hnk : ∀ i < KEYBOARD_MAX_HISTORY, st.prev_keys i ≠ k := by
      intro i hi h
      have := (hinv.slot_range i hi).2
      rw [h, hm] at this
      exact absurd this (by decide)
    refine ⟨?_, ?_, ?_, ?_, ?_, ?_⟩
    · show Function.update st.keyboard_state k _ 0 = false
      rw [Function.update_noteq (Ne.symm hk0)]; exact hinv.zero
    · exact hinv.slot_range
    · intro i hi h0
      show Function.update st.keyboard_state k _ (st.prev_keys i) = true
      rw [Function.update_noteq (hnk i hi)]
      exact hinv.slot_pressed i hi h0
    · exact hinv.slot_distinct
    · intro s hs
      by_cases hsk : s = k
      · left; rw [hsk]; exact hm
      · have hs' : Function.update st.keyboard_state k _ s = true := hs
        rw [Function.update_noteq hsk] at hs'
        exact hinv.pressed_origin s hs'
    · intro s
      show ((downs (pre ++ (tr ++ [_])) s : Int) - _) =
        if Function.update st.keyboard_state k _ s = true then 1 else 0
      rw [← List.append_assoc, net_append_one, hinv.net s]
      by_cases hsk : k = s
      · subst hsk
        simp only [Function.update_same, if_true]
        cases hh : decide (modifiers &&& b ≠ 0) <;> cases hs : st.keyboard_state k <;>
          simp_all
      · rw [Function.update_noteq (Ne.symm hsk)]
        simp [hsk]

theorem slot_ks_apply (ks : Nat → Bool) (p c s : Nat) :
    (fun ks1 => if c ≠ 0 then Function.update ks1 c true else ks1)
        (if p ≠ 0 then Function.update ks p false else ks) s
      = if c ≠ 0 ∧ s = c then true else if p ≠ 0 ∧ s = p then false else ks s := by
  by_cases hc : c = 0 <;> by_cases hp : p = 0 <;> by_cases h1 : s = c <;> by_cases h2 : s = p <;>
    simp [Function.update_apply, hc, hp, h1, h2]

/-- One round of the slot loop on a well-formed snapshot never leaves the array
and keeps the invariant. -/
theorem slot_step_inv (translate : Nat → Nat) (keyCode prev0 : Nat → Nat) (mod : Nat)
    (pre : List keyboard_event) (hok : snapshot_ok prev0 keyCode)
    (i : Nat) (hi : i < KEYBOARD_MAX_HISTORY)
    (acc : ps4_input × List keyboard_event) (hinv : slot_loop_inv pre prev0 keyCode i acc) :
    ∃ acc', slot_step translate keyCode mod acc i = some acc' ∧
      slot_loop_inv pre prev0 keyCode (i + 1) acc' := by
  obtain ⟨st, tr⟩ := acc
  obtain ⟨hk, hlow, hhigh⟩ := hinv
  simp only at hk hlow hhigh
  obtain ⟨hc, hcm, hcfresh0⟩ := hok i hi
  have hp := (hk.slot_range i hi).1
  refine ⟨_, slot_step_eq translate keyCode mod st tr i hp hc, ?_⟩
  by_cases hsame : keyCode i = st.prev_keys i
  · rw [if_pos hsame]
    refine ⟨hk, ?_, ?_⟩
    · intro j hj
      rcases Nat.lt_succ_iff_lt_or_eq.mp hj with h | h
      · exact hlow j h
      · rw [h]; exact hsame.symm
    · intro j hj hj6; exact hhigh j (by omega) hj6
  · rw [if_neg hsame]
    -- the new scancode is held by no slot, the old one by no other slot
    have hcfresh : keyCode i ≠ 0 → ∀ j < KEYBOARD_MAX_HISTORY, st.prev_keys j ≠ keyCode i := by
      intro h0 j hj
      rcases Nat.lt_trichotomy j i with h | h | h
      · rw [hlow j h]; exact (hcfresh0 h0).1 j h
      · rw [h]; exact fun e => hsame e.symm
      · rw [hhigh j (by omega) hj]; exact (hcfresh0 h0).2 j hj h
    have hcfalse : keyCode i ≠ 0 → st.keyboard_state (keyCode i) = false := by
      intro h0
      cases hv : st.keyboard_state (keyCode i) with
      | false => rfl
      | true =>
        rcases hk.pressed_origin _ hv with h | ⟨j, hj, h⟩
        · rw [hcm] at h; exact absurd h (by decide)
        · exact absurd h (hcfresh h0 j hj)
    refine ⟨⟨?_, ?_, ?_, ?_, ?_, ?_⟩, ?_, ?_⟩
    · show (fun ks1 => if keyCode i ≠ 0 then Function.update ks1 (keyCode i) true else ks1)
        (if st.prev_keys i ≠ 0 then Function.update st.keyboard_state (st.prev_keys i) false
          else st.keyboard_state) 0 = false
      rw [slot_ks_apply]
      have e1 : ¬ (keyCode i ≠ 0 ∧ 0 = keyCode i) := fun h => h.1 h.2.symm
      have e2 : ¬ (st.prev_keys i ≠ 0 ∧ 0 = st.prev_keys i) := fun h => h.1 h.2.symm
      rw [if_neg e1, if_neg e2]
      exact hk.zero
    · intro j hj
      show Function.update st.prev_keys i (keyCode i) j ≤ _ ∧ is_modifier (Function.update st.prev_keys i (keyCode i) j) = false
      by_cases hji : j = i
      · rw [hji, Function.update_same]; exact ⟨hc, hcm⟩
      · rw [Function.update_noteq hji]; exact hk.slot_range j hj
    · intro j hj
      show Function.update st.prev_keys i (keyCode i) j ≠ 0 →
        (fun ks1 => if keyCode i ≠ 0 then Function.update ks1 (keyCode i) true else ks1)
        (if st.prev_keys i ≠ 0 then Function.update st.keyboard_state (st.prev_keys i) false
          else st.keyboard_state) (Function.update st.prev_keys i (keyCode i) j) = true
      rw [slot_ks_apply]
      by_cases hji : j = i
      · rw [hji, Function.update_same]
        intro h0; simp [h0]
      · rw [Function.update_noteq hji]
        intro h0
        have h1 := hk.slot_pressed j hj h0
        have h2 : st.prev_keys i ≠ 0 → st.prev_keys j ≠ st.prev_keys i :=
          fun hp0 e => hk.slot_distinct i hi j hj (Ne.symm hji) hp0 e.symm
        by_cases hcj : keyCode i ≠ 0 ∧ st.prev_keys j = keyCode i
        · rw [if_pos hcj]
        · rw [if_neg hcj]
          by_cases hpj : st.prev_keys i ≠ 0 ∧ st.prev_keys j = st.prev_keys i
          · exact absurd hpj.2 (h2 hpj.1)
          · rw [if_neg hpj]; exact h1
    · intro j1 hj1 j2 hj2 hne
      show Function.update st.prev_keys i (keyCode i) j1 ≠ 0 →
        Function.update st.prev_keys i (keyCode i) j1 ≠ Function.update st.prev_keys i (keyCode i) j2
      by_cases h1 : j1 = i
      · have h2 : j2 ≠ i := fun e => hne (h1.trans e.symm)
        rw [h1, Function.update_same, Function.update_noteq h2]
        intro h0 e
        exact hcfresh h0 j2 hj2 e.symm
      · rw [Function.update_noteq h1]
        by_cases h2 : j2 = i
        · rw [h2, Function.update_same]
          intro h0 e
          have hc0 : keyCode i ≠ 0 := by rw [← e]; exact h0
          exact hcfresh hc0 j1 hj1 e
        · rw [Function.update_noteq h2]
          exact hk.slot_distinct j1 hj1 j2 hj2 hne
    · intro s
      show (fun ks1 => if keyCode i ≠ 0 then Function.update ks1 (keyCode i) true else ks1)
        (if st.prev_keys i ≠ 0 then Function.update st.keyboard_state (st.prev_keys i) false
          else st.keyboard_state) s = true → is_modifier s = true ∨
          ∃ j < KEYBOARD_MAX_HISTORY, Function.update st.prev_keys i (keyCode i) j = s
      rw [slot_ks_apply]
      by_cases hcs : keyCode i ≠ 0 ∧ s = keyCode i
      · intro _
        right
        exact ⟨i, hi, by rw [Function.update_same]; exact hcs.2.symm⟩
      · rw [if_neg hcs]
        by_cases hps : st.prev_keys i ≠ 0 ∧ s = st.prev_keys i
        · rw [if_pos hps]; intro h; exact absurd h (by decide)
        · rw [if_neg hps]
          intro hs
          rcases hk.pressed_origin s hs with h | ⟨j, hj, h⟩
          · exact Or.inl h
          · right
            refine ⟨j, hj, ?_⟩
            have hji : j ≠ i := by
              intro e
              rw [e] at h
              by_cases hp0 : st.prev_keys i = 0
              · rw [hp0] at h
                rw [← h, hk.zero] at hs
                exact absurd hs (by decide)
              · exact hps ⟨hp0, h.symm⟩
            rw [Function.update_noteq hji]; exact h
    · intro s
      show ((downs (pre ++ (tr ++ _ ++ _)) s : Int) - _) =
        if (fun ks1 => if keyCode i ≠ 0 then Function.update ks1 (keyCode i) true else ks1)
        (if st.prev_keys i ≠ 0 then Function.update st.keyboard_state (st.prev_keys i) false
          else st.keyboard_state) s = true then 1 else 0
      rw [slot_ks_apply]
      have hnet := hk.net s
      have hpt := hk.slot_pressed i hi
      have hsame' : ¬ st.prev_keys i = keyCode i := fun e => hsame e.symm
      by_cases hp0 : st.prev_keys i = 0 <;> by_cases hc0 : keyCode i = 0
      · simp only [hp0, hc0, ne_eq, not_true_eq_false, if_false, List.append_nil, false_and]
        exact hnet
      · simp only [hp0, hc0, ne_eq, not_true_eq_false, not_false_eq_true, if_true, if_false,
          List.append_nil, false_and, true_and]
        rw [← List.append_assoc, net_append_one, hnet]
        by_cases hs : s = keyCode i
        · subst hs
          simp [hcfalse hc0]
        · simp [hs, Ne.symm hs]
      · simp only [hp0, hc0, ne_eq, not_true_eq_false, not_false_eq_true, if_true, if_false,
          List.append_nil, false_and, true_and]
        rw [← List.append_assoc, net_append_one, hnet]
        by_cases hs : s = st.prev_keys i
        · subst hs
          simp [hpt hp0]
        · simp [hs, Ne.symm hs]
      · simp only [hp0, hc0, ne_eq, not_false_eq_true, if_true, true_and]
        rw [← List.append_assoc, ← List.append_assoc, net_append_one, net_append_one, hnet]
        by_cases hs : s = keyCode i
        · subst hs
          simp [hcfalse hc0, hsame, hsame']
        · by_cases hs2 : s = st.prev_keys i
          · subst hs2
            simp [hpt hp0, hsame, hsame']
          · simp [hs, hs2, Ne.symm hs, Ne.symm hs2]
    · intro j hj
      show Function.update st.prev_keys i (keyCode i) j = keyCode j
      rcases Nat.lt_succ_iff_lt_or_eq.mp hj with h | h
      · rw [Function.update_noteq (Nat.ne_of_lt h)]; exact hlow j h
      · rw [h, Function.update_same]
    · intro j hj hj6
      show Function.update st.prev_keys i (keyCode i) j = prev0 j
      rw [Function.update_noteq (by omega)]
      exact hhigh j (by omega) hj6

theorem kbd_inv_congr (st1 st2 : ps4_input) (tr : List keyboard_event)
    (h1 : st2.keyboard_state = st1.keyboard_state) (h2 : st2.prev_keys = st1.prev_keys)
    (h : kbd_inv st1 tr) : kbd_inv st2 tr := by
  obtain ⟨a, b, c, d, e, f⟩ := h
  refine ⟨?_, ?_, ?_, ?_, ?_, ?_⟩ <;> simp only [h1, h2] <;> assumption

theorem modifier_phase_inv (translate : Nat → Nat) (modifiers mod : Nat)
    (pre : List keyboard_event) (acc : ps4_input × List keyboard_event)
    (hinv : kbd_inv acc.1 (pre ++ acc.2)) :
    ∃ acc', modifier_phase translate modifiers mod acc = some acc' ∧
      kbd_inv acc'.1 (pre ++ acc'.2) ∧ acc'.1.prev_keys = acc.1.prev_keys := by
  apply foldlM_inv (modifier_step translate modifiers mod)
    (fun a => kbd_inv a.1 (pre ++ a.2) ∧ a.1.prev_keys = acc.1.prev_keys) modifier_lut
  · intro e he s hs
    obtain ⟨s', e1, p1, p2⟩ := modifier_step_inv translate modifiers mod pre e he s hs.1
    exact ⟨s', e1, p1, p2.trans hs.2⟩
  · exact ⟨hinv, rfl⟩

theorem slot_phase_inv (translate : Nat → Nat) (keyCode : Nat → Nat) (mod : Nat)
    (pre : List keyboard_event) (acc : ps4_input × List keyboard_event)
    (hok : snapshot_ok acc.1.prev_keys keyCode)
    (hinv : kbd_inv acc.1 (pre ++ acc.2)) :
    ∃ acc', slot_phase translate keyCode mod acc = some acc' ∧
      kbd_inv acc'.1 (pre ++ acc'.2) ∧
      ∀ j < KEYBOARD_MAX_HISTORY, acc'.1.prev_keys j = keyCode j := by
  obtain ⟨acc', e, p⟩ := foldlM_range_inv (slot_step translate keyCode mod)
    (slot_loop_inv pre acc.1.prev_keys keyCode) KEYBOARD_MAX_HISTORY
    (fun i hi s hs => slot_step_inv translate keyCode acc.1.prev_keys mod pre hok i hi s hs)
    acc ⟨hinv, fun j hj => absurd hj (Nat.not_lt_zero j), fun j _ _ => rfl⟩
  exact ⟨acc', e, p.1, p.2.1⟩

/-- One poll on a well-formed snapshot completes and keeps the invariant. -/
theorem poll_inv (translate : Nat → Nat) (F : SceMouseButton) (inp : poll_input)
    (st : ps4_input) (pre : List keyboard_event) (hinv : kbd_inv st pre)
    (hok : inp.keyboard_state.connected = true →
      snapshot_ok st.prev_keys inp.keyboard_state.keyCode) :
    ∃ r, ps4_input_poll translate F inp st = some r ∧ kbd_inv r.1 (pre ++ r.2) ∧
      ∀ j < KEYBOARD_MAX_HISTORY, r.1.prev_keys j =
        if inp.keyboard_state.connected then inp.keyboard_state.keyCode j else st.prev_keys j := by
  cases hc : inp.keyboard_state.connected with
  | false =>
    refine ⟨_, poll_disconnected translate F inp st hc, ?_, ?_⟩
    · rw [List.append_nil]
      exact kbd_inv_congr st _ pre (poll_mouse_keyboard_state F _ _ st)
        (poll_mouse_prev_keys F _ _ st) hinv
    · intro j _
      simp only [Bool.false_eq_true, if_false]
      exact congrFun (poll_mouse_prev_keys F _ _ st) j
  | true =>
    have h0 : kbd_inv ({ ps4_input_poll_mouse F inp.mouse_ret inp.mouse_state st with
        keyboard_connected := true }) (pre ++ []) := by
      rw [List.append_nil]
      exact kbd_inv_congr st _ pre (poll_mouse_keyboard_state F _ _ st)
        (poll_mouse_prev_keys F _ _ st) hinv
    obtain ⟨a1, e1, p1, q1⟩ := modifier_phase_inv translate
      (inp.keyboard_state.modifierKey % 2 ^ 32) (inp.keyboard_state.modifierKey % 2 ^ 16) pre
      ({ ps4_input_poll_mouse F inp.mouse_ret inp.mouse_state st with
          keyboard_connected := true }, []) h0
    have hok1 : snapshot_ok a1.1.prev_keys inp.keyboard_state.keyCode := by
      rw [q1]
      show snapshot_ok (ps4_input_poll_mouse F inp.mouse_ret inp.mouse_state st).prev_keys _
      rw [poll_mouse_prev_keys]
      exact hok hc
    obtain ⟨a2, e2, p2, q2⟩ := slot_phase_inv translate inp.keyboard_state.keyCode
      (inp.keyboard_state.modifierKey % 2 ^ 16) pre a1 hok1 p1
    refine ⟨a2, ?_, p2, ?_⟩
    · simp only [ps4_input_poll, ps4_input_poll_keyboard, hc, if_true]
      rw [e1]
      exact e2
    · intro j hj
      simp only [if_true]
      exact q2 j hj

theorem snapshot_ok_congr (p1 p2 keyCode : Nat → Nat)
    (h : ∀ j < KEYBOARD_MAX_HISTORY, p1 j = p2 j) (hok : snapshot_ok p2 keyCode) :
    snapshot_ok p1 keyCode := by
  intro i hi
  obtain ⟨a, b, c⟩ := hok i hi
  refine ⟨a, b, fun h0 => ⟨(c h0).1, fun j hj hij => ?_⟩⟩
  rw [h j hj]
  exact (c h0).2 j hj hij

theorem polls_ok_congr (inputs : List poll_input) :
    ∀ (p1 p2 : Nat → Nat), (∀ j < KEYBOARD_MAX_HISTORY, p1 j = p2 j) →
      polls_ok p2 inputs → polls_ok p1 inputs := by
  induction inputs with
  | nil => intro _ _ _ _; trivial
  | cons inp rest ih =>
    intro p1 p2 h hok
    unfold polls_ok at hok ⊢
    cases hc : inp.keyboard_state.connected with
    | false =>
      rw [hc] at hok
      simp only [Bool.false_eq_true, if_false] at hok ⊢
      exact ih p1 p2 h hok
    | true =>
      rw [hc] at hok
      simp only [if_true] at hok ⊢
      exact ⟨snapshot_ok_congr p1 p2 _ h hok.1, hok.2⟩

/-- Every well-formed sequence of polls completes and keeps the invariant. -/
theorem poll_seq_inv (translate : Nat → Nat) (F : SceMouseButton) (inputs : List poll_input) :
    ∀ (st : ps4_input) (tr : List keyboard_event), kbd_inv st tr →
      polls_ok st.prev_keys inputs →
      ∃ st' tr', poll_seq translate F inputs (st, tr) = some (st', tr') ∧ kbd_inv st' tr' := by
  induction inputs with
  | nil => intro st tr h _; exact ⟨st, tr, rfl, h⟩
  | cons inp rest ih =>
    intro st tr hinv hok
    unfold polls_ok at hok
    have hsnap : inp.keyboard_state.connected = true →
        snapshot_ok st.prev_keys inp.keyboard_state.keyCode := by
      intro hc; rw [hc] at hok; exact hok.1
    obtain ⟨r, e, p, q⟩ := poll_inv translate F inp st tr hinv hsnap
    have hrest : polls_ok r.1.prev_keys rest := by
      cases hc : inp.keyboard_state.connected with
      | false =>
        rw [hc] at hok q
        simp only [Bool.false_eq_true, if_false] at hok q
        exact polls_ok_congr rest _ _ q hok
      | true =>
        rw [hc] at hok q
        simp only [if_true] at hok q
        exact polls_ok_congr rest _ _ q hok.2
    obtain ⟨st', tr', e', p'⟩ := ih r.1 (tr ++ r.2) p hrest
    refine ⟨st', tr', ?_, p'⟩
    rw [poll_seq, e]
    exact e'

/-- C1, counterexample: one connected poll whose snapshot holds scancode 4 in two
slots emits two `down` events for it and no `up`, while `keyboard_state[4]` is true. -/
theorem C1_duplicate_slot_counterexample :
    (poll_seq id ⟨1, 2, 4, 0x80000000⟩
        [⟨0, ⟨false, 0, 0, 0⟩, ⟨true, 0, cells [4, 4, 0, 0, 0, 0]⟩⟩]
        ( ps4_input_initialize, [])).map
      (fun r => (downs r.2 4, ups r.2 4, r.1.keyboard_state 4)) = some (2, 0, true) := by
  decide

/-- C1, amended: every sequence of polls from `ps4_input_initialize` whose connected
snapshots hold slot values <= 0xE7 outside `modifier_lut`, no nonzero scancode in
two slots, and no nonzero scancode at an index lower than one where the preceding
connected snapshot held it, completes, and in the state reached the number of
`down` events minus the number of `up` events for each scancode `s <= 0xE7` is 1
if `keyboard_state[s]` is true and 0 otherwise. -/
theorem C1_net_edges_on_wellformed_polls (translate : Nat → Nat) (F : SceMouseButton)
    (inputs : List poll_input) (hok : polls_ok (fun _ => 0) inputs) :
    ∃ st tr, poll_seq translate F inputs ( ps4_input_initialize, []) = some (st, tr) ∧
      ∀ s, s ≤ PS4_MAX_SCANCODE →
        (downs tr s : Int) - (ups tr s : Int) = if st.keyboard_state s then 1 else 0 := by
  obtain ⟨st, tr, e, p⟩ := poll_seq_inv translate F inputs ps4_input_initialize []
    kbd_inv_initialize hok
  exact ⟨st, tr, e, fun s _ => p.net s⟩

/-- Instance of C1 at a connected, a disconnected and a connected poll. -/
theorem C1_net_edges_on_wellformed_polls_witness :
    ∃ st tr, poll_seq id ⟨1, 2, 4, 0x80000000⟩
        [⟨0, ⟨false, 0, 0, 0⟩, ⟨true, 0x02, cells [4, 5, 0, 0, 0, 0]⟩⟩,
         ⟨0, ⟨false, 0, 0, 0⟩, ⟨false, 0x00, cells [9, 9, 9, 9, 9, 9]⟩⟩,
         ⟨0, ⟨false, 0, 0, 0⟩, ⟨true, 0x00, cells [0, 5, 4, 0, 0, 0]⟩⟩]
        ( ps4_input_initialize, []) = some (st, tr) ∧
      ∀ s, s ≤ PS4_MAX_SCANCODE →
        (downs tr s : Int) - (ups tr s : Int) = if st.keyboard_state s then 1 else 0 :=
  C1_net_edges_on_wellformed_polls id ⟨1, 2, 4, 0x80000000⟩
    [⟨0, ⟨false, 0, 0, 0⟩, ⟨true, 0x02, cells [4, 5, 0, 0, 0, 0]⟩⟩,
     ⟨0, ⟨false, 0, 0, 0⟩, ⟨false, 0x00, cells [9, 9, 9, 9, 9, 9]⟩⟩,
     ⟨0, ⟨false, 0, 0, 0⟩, ⟨true, 0x00, cells [0, 5, 4, 0, 0, 0]⟩⟩]
    (by decide)

/-- C2, counterexample: after the snapshots [4, 4, 0, 0, 0, 0] and then
[0, 4, 0, 0, 0, 0] (scancode 4 reported in two slots, then in one), `prev_keys[1]`
is 4 while `keyboard_state[4]` is false. -/
theorem C2_duplicate_slot_counterexample :
    (poll_seq id ⟨1, 2, 4, 0x80000000⟩
        [⟨0, ⟨false, 0, 0, 0⟩, ⟨true, 0, cells [4, 4, 0, 0, 0, 0]⟩⟩,
         ⟨0, ⟨false, 0, 0, 0⟩, ⟨true, 0, cells [0, 4, 0, 0, 0, 0]⟩⟩]
        ( ps4_input_initialize, [])).map
      (fun r => (r.1.prev_keys 1, r.1.keyboard_state 4)) = some (4, false) := by
  decide

/-- C2, amended: every sequence of polls from `ps4_input_initialize` whose connected
snapshots hold slot values <= 0xE7 outside `modifier_lut`, no nonzero scancode in
two slots, and no nonzero scancode at an index lower than one where the preceding
connected snapshot held it, completes, and in the state reached every
`prev_keys[i]`, `i` in 0..5, is 0 or has `keyboard_state[prev_keys[i]]` true. -/
theorem C2_prev_keys_pressed_on_wellformed_polls (translate : Nat → Nat) (F : SceMouseButton)
    (inputs : List poll_input) (hok : polls_ok (fun _ => 0) inputs) :
    ∃ st tr, poll_seq translate F inputs ( ps4_input_initialize, []) = some (st, tr) ∧
      ∀ i, i < KEYBOARD_MAX_HISTORY →
        st.prev_keys i = 0 ∨ st.keyboard_state (st.prev_keys i) = true := by
  obtain ⟨st, tr, e, p⟩ := poll_seq_inv translate F inputs ps4_input_initialize []
    kbd_inv_initialize hok
  refine ⟨st, tr, e, fun i hi => ?_⟩
  by_cases h : st.prev_keys i = 0
  · exact Or.inl h
  · exact Or.inr (p.slot_pressed i hi h)

/-- Instance of C2 at two connected polls, key 4 moving from slot 0 to slot 1. -/
theorem C2_prev_keys_pressed_on_wellformed_polls_witness :
    ∃ st tr, poll_seq id ⟨1, 2, 4, 0x80000000⟩
        [⟨0, ⟨false, 0, 0, 0⟩, ⟨true, 0x00, cells [4, 0, 6, 0, 0, 0]⟩⟩,
         ⟨0, ⟨false, 0, 0, 0⟩, ⟨true, 0x10, cells [0, 4, 6, 7, 0, 0]⟩⟩]
        ( ps4_input_initialize, []) = some (st, tr) ∧
      ∀ i, i < KEYBOARD_MAX_HISTORY →
        st.prev_keys i = 0 ∨ st.keyboard_state (st.prev_keys i) = true :=
  C2_prev_keys_pressed_on_wellformed_polls id ⟨1, 2, 4, 0x80000000⟩
    [⟨0, ⟨false, 0, 0, 0⟩, ⟨true, 0x00, cells [4, 0, 6, 0, 0, 0]⟩⟩,
     ⟨0, ⟨false, 0, 0, 0⟩, ⟨true, 0x10, cells [0, 4, 6, 7, 0, 0]⟩⟩]
    (by decide)

/-- The modifier loop never leaves `keyboard_state` and does not touch `prev_keys`. -/
theorem modifier_phase_total (translate : Nat → Nat) (modifiers mod : Nat)
    (acc : ps4_input × List keyboard_event) :
    ∃ acc', modifier_phase translate modifiers mod acc = some acc' ∧
      acc'.1.prev_keys = acc.1.prev_keys := by
  apply foldlM_inv (modifier_step translate modifiers mod)
    (fun a => a.1.prev_keys = acc.1.prev_keys) modifier_lut
  · intro e he s hs
    obtain ⟨st, tr⟩ := s
    obtain ⟨k, b⟩ := e
    refine ⟨_, modifier_step_eq translate modifiers mod st tr k b
      (modifier_lut_entries (k, b) he).1, ?_⟩
    split
    · exact hs
    · exact hs
  · rfl

/-- C3: from a state with `prev_keys = [a, b, 0, 0, 0, 0]`, a connected poll whose
slots are `[b, a, 0, 0, 0, 0]` completes; after the events `evs` of its modifier
phase, its slot phase emits exactly up(a), down(b), up(b), down(a) in that order;
afterwards `keyboard_state[a]` is true but `keyboard_state[b]` is false, although
`b` is still held (it sits in slot 0 of the snapshot and of `prev_keys`). -/
theorem C3_rearrangement_releases_held_key (translate : Nat → Nat) (F : SceMouseButton)
    (inp : poll_input) (st : ps4_input) (a b : Nat)
    (ha0 : a ≠ 0) (hb0 : b ≠ 0) (hab : a ≠ b)
    (ha : a ≤ PS4_MAX_SCANCODE) (hb : b ≤ PS4_MAX_SCANCODE)
    (hprev : st.prev_keys = cells [a, b, 0, 0, 0, 0])
    (hconn : inp.keyboard_state.connected = true)
    (hsnap : inp.keyboard_state.keyCode = cells [b, a, 0, 0, 0, 0]) :
    ∃ st' s1 evs,
      modifier_phase translate (inp.keyboard_state.modifierKey % 2 ^ 32)
        (inp.keyboard_state.modifierKey % 2 ^ 16)
        ({ ps4_input_poll_mouse F inp.mouse_ret inp.mouse_state st with
            keyboard_connected := true }, []) = some (s1, evs) ∧
      ps4_input_poll translate F inp st =
        some (st', evs ++
          [⟨false, a, translate a, 0, inp.keyboard_state.modifierKey % 2 ^ 16,
              retro_device.KEYBOARD⟩,
           ⟨true, b, translate b, 0, inp.keyboard_state.modifierKey % 2 ^ 16,
              retro_device.KEYBOARD⟩,
           ⟨false, b, translate b, 0, inp.keyboard_state.modifierKey % 2 ^ 16,
              retro_device.KEYBOARD⟩,
           ⟨true, a, translate a, 0, inp.keyboard_state.modifierKey % 2 ^ 16,
              retro_device.KEYBOARD⟩]) ∧
      st'.keyboard_state a = true ∧ st'.keyboard_state b = false ∧
      st'.prev_keys 0 = b ∧ st'.prev_keys 1 = a := by
  obtain ⟨⟨s1, evs⟩, e1, p1⟩ := modifier_phase_total translate
    (inp.keyboard_state.modifierKey % 2 ^ 32) (inp.keyboard_state.modifierKey % 2 ^ 16)
    ({ ps4_input_poll_mouse F inp.mouse_ret inp.mouse_state st with
        keyboard_connected := true }, [])
  have hp1 : s1.prev_keys = cells [a, b, 0, 0, 0, 0] := by
    rw [← hprev, ← poll_mouse_prev_keys F inp.mouse_ret inp.mouse_state st]
    exact p1
  have hba : b ≠ a := Ne.symm hab
  have ha256 : a % 256 = a := by unfold PS4_MAX_SCANCODE at ha; omega
  have hb256 : b % 256 = b := by unfold PS4_MAX_SCANCODE at hb; omega
  have hslot : ∃ st', slot_phase translate inp.keyboard_state.keyCode
      (inp.keyboard_state.modifierKey % 2 ^ 16) (s1, evs) =
        some (st', evs ++
          [⟨false, a, translate a, 0, inp.keyboard_state.modifierKey % 2 ^ 16,
              retro_device.KEYBOARD⟩,
           ⟨true, b, translate b, 0, inp.keyboard_state.modifierKey % 2 ^ 16,
              retro_device.KEYBOARD⟩,
           ⟨false, b, translate b, 0, inp.keyboard_state.modifierKey % 2 ^ 16,
              retro_device.KEYBOARD⟩,
           ⟨true, a, translate a, 0, inp.keyboard_state.modifierKey % 2 ^ 16,
              retro_device.KEYBOARD⟩]) ∧
      st'.keyboard_state a = true ∧ st'.keyboard_state b = false ∧
      st'.prev_keys 0 = b ∧ st'.prev_keys 1 = a := by
    rw [hsnap]
    simp [slot_phase, KEYBOARD_MAX_HISTORY, List.range, List.range.loop, slot_step, ks_write,
      hp1, cells, ha0, hb0, hab, hba, ha, hb, ha256, hb256, Function.update]
  obtain ⟨st', e2, r⟩ := hslot
  refine ⟨st', s1, evs, e1, ?_, r⟩
  simp only [ps4_input_poll, ps4_input_poll_keyboard, hconn, if_true]
  rw [e1]
  exact e2

/-- Instance of C3 at a = 0x04, b = 0x05, in the state with exactly these two keys
pressed and modifier mask 0. -/
theorem C3_rearrangement_releases_held_key_witness :
    ∃ st' s1 evs,
      modifier_phase id (0 % 2 ^ 32) (0 % 2 ^ 16)
        ({ ps4_input_poll_mouse ⟨1, 2, 4, 0x80000000⟩ 0 ⟨false, 0, 0, 0⟩
            { ps4_input_initialize with
              keyboard_state := fun s => decide (s = 4 ∨ s = 5)
              prev_keys := cells [4, 5, 0, 0, 0, 0] } with
            keyboard_connected := true }, []) = some (s1, evs) ∧
      ps4_input_poll id ⟨1, 2, 4, 0x80000000⟩
          ⟨0, ⟨false, 0, 0, 0⟩, ⟨true, 0, cells [5, 4, 0, 0, 0, 0]⟩⟩
          { ps4_input_initialize with
            keyboard_state := fun s => decide (s = 4 ∨ s = 5)
            prev_keys := cells [4, 5, 0, 0, 0, 0] } =
        some (st', evs ++
          [⟨false, 4, 4, 0, 0 % 2 ^ 16, retro_device.KEYBOARD⟩,
           ⟨true, 5, 5, 0, 0 % 2 ^ 16, retro_device.KEYBOARD⟩,
           ⟨false, 5, 5, 0, 0 % 2 ^ 16, retro_device.KEYBOARD⟩,
           ⟨true, 4, 4, 0, 0 % 2 ^ 16, retro_device.KEYBOARD⟩]) ∧
      st'.keyboard_state 4 = true ∧ st'.keyboard_state 5 = false ∧
      st'.prev_keys 0 = 5 ∧ st'.prev_keys 1 = 4 :=
  C3_rearrangement_releases_held_key id ⟨1, 2, 4, 0x80000000⟩
    ⟨0, ⟨false, 0, 0, 0⟩, ⟨true, 0, cells [5, 4, 0, 0, 0, 0]⟩⟩
    { ps4_input_initialize with
      keyboard_state := fun s => decide (s = 4 ∨ s = 5)
      prev_keys := cells [4, 5, 0, 0, 0, 0] }
    4 5 (by decide) (by decide) (by decide) (by decide) (by decide) rfl rfl rfl

/-- C4, counterexample: from the initial state a connected poll with modifier mask
0x01 and empty slots emits two events, down for scancode 0xE0 (LCTRL) and down
for scancode 0x53 (NUMLOCK), both with mod = 0x0001. -/
theorem C4_two_events_counterexample :
    (ps4_input_poll id ⟨1, 2, 4, 0x80000000⟩ ⟨0, ⟨false, 0, 0, 0⟩, ⟨true, 0x01, fun _ => 0⟩⟩
      ps4_input_initialize).map (fun r => r.2.map (fun e => (e.down, e.key_sym, e.mod)))
      = some [(true, 0xE0, 0x0001), (true, 0x53, 0x0001)] := by
  decide

/-- C4, amended: from a state with `keyboard_state` all false and `prev_keys` all 0,
a connected poll with modifier mask 0x01 and all slots 0 emits exactly two events,
down(key_id(LCTRL)) then down(key_id(NUMLOCK)), each with mod = 0x0001; a
following connected poll with mask 0x00 and all slots 0 emits exactly two events,
up(key_id(LCTRL)) then up(key_id(NUMLOCK)), each with mod = 0x0000. -/
theorem C4_modifier_toggle (translate : Nat → Nat) (F : SceMouseButton) (r1 r2 : Int)
    (m1 m2 : SceMouseData) (st : ps4_input)
    (hks : st.keyboard_state = fun _ => false) (hpk : st.prev_keys = fun _ => 0) :
    ∃ st1 st2,
      ps4_input_poll translate F ⟨r1, m1, ⟨true, 0x01, fun _ => 0⟩⟩ st
        = some (st1, [⟨true, 0xE0, translate 0xE0, 0, 0x0001, retro_device.KEYBOARD⟩,
                      ⟨true, 0x53, translate 0x53, 0, 0x0001, retro_device.KEYBOARD⟩]) ∧
      ps4_input_poll translate F ⟨r2, m2, ⟨true, 0x00, fun _ => 0⟩⟩ st1
        = some (st2, [⟨false, 0xE0, translate 0xE0, 0, 0x0000, retro_device.KEYBOARD⟩,
                      ⟨false, 0x53, translate 0x53, 0, 0x0000, retro_device.KEYBOARD⟩]) := by
  have k1 : ∀ s0 : ps4_input, s0.keyboard_state = (fun _ => false) →
      s0.prev_keys = (fun _ => 0) →
      ps4_input_poll_keyboard translate ⟨true, 0x01, fun _ => 0⟩ s0
        = some ({ s0 with
                  keyboard_connected := true
                  keyboard_state :=
                    Function.update (Function.update (fun _ => false) 0xE0 true) 0x53 true },
                [⟨true, 0xE0, translate 0xE0, 0, 0x0001, retro_device.KEYBOARD⟩,
                 ⟨true, 0x53, translate 0x53, 0, 0x0001, retro_device.KEYBOARD⟩]) := by
    intro s0 hk hp
    simp [ps4_input_poll_keyboard, modifier_phase, modifier_lut, modifier_step, ks_read,
      ks_write, slot_phase, slot_step, hk, hp, PS4_MAX_SCANCODE, KEYBOARD_MAX_HISTORY,
      List.range, List.range.loop, Function.update]
  have k2 : ∀ s1 : ps4_input,
      s1.keyboard_state = Function.update (Function.update (fun _ => false) 0xE0 true) 0x53 true →
      s1.prev_keys = (fun _ => 0) →
      ∃ s2, ps4_input_poll_keyboard translate ⟨true, 0x00, fun _ => 0⟩ s1
        = some (s2, [⟨false, 0xE0, translate 0xE0, 0, 0x0000, retro_device.KEYBOARD⟩,
                     ⟨false, 0x53, translate 0x53, 0, 0x0000, retro_device.KEYBOARD⟩]) := by
    intro s1 hk hp
    simp [ps4_input_poll_keyboard, modifier_phase, modifier_lut, modifier_step, ks_read,
      ks_write, slot_phase, slot_step, hk, hp, PS4_MAX_SCANCODE, KEYBOARD_MAX_HISTORY,
      List.range, List.range.loop, Function.update]
  have e1 := k1 (ps4_input_poll_mouse F r1 m1 st)
    ((poll_mouse_keyboard_state F r1 m1 st).trans hks)
    ((poll_mouse_prev_keys F r1 m1 st).trans hpk)
  obtain ⟨s2, e2⟩ := k2
    (ps4_input_poll_mouse F r2 m2
      { ps4_input_poll_mouse F r1 m1 st with
        keyboard_connected := true
        keyboard_state :=
          Function.update (Function.update (fun _ => false) 0xE0 true) 0x53 true })
    (poll_mouse_keyboard_state F r2 m2 _)
    ((poll_mouse_prev_keys F r2 m2 _).trans ((poll_mouse_prev_keys F r1 m1 st).trans hpk))
  exact ⟨_, s2, e1, e2⟩

/-- Instance of C4 from the initial state, with the identity as translation. -/
theorem C4_modifier_toggle_witness :
    ∃ st1 st2,
      ps4_input_poll id ⟨1, 2, 4, 0x80000000⟩ ⟨0, ⟨false, 0, 0, 0⟩, ⟨true, 0x01, fun _ => 0⟩⟩
          ps4_input_initialize
        = some (st1, [⟨true, 0xE0, 0xE0, 0, 0x0001, retro_device.KEYBOARD⟩,
                      ⟨true, 0x53, 0x53, 0, 0x0001, retro_device.KEYBOARD⟩]) ∧
      ps4_input_poll id ⟨1, 2, 4, 0x80000000⟩ ⟨0, ⟨false, 0, 0, 0⟩, ⟨true, 0x00, fun _ => 0⟩⟩ st1
        = some (st2, [⟨false, 0xE0, 0xE0, 0, 0x0000, retro_device.KEYBOARD⟩,
                      ⟨false, 0x53, 0x53, 0, 0x0000, retro_device.KEYBOARD⟩]) :=
  C4_modifier_toggle id ⟨1, 2, 4, 0x80000000⟩ 0 0 ⟨false, 0, 0, 0⟩ ⟨false, 0, 0, 0⟩
    ps4_input_initialize rfl rfl

/-! ## Theorems: joypad binding resolver -/

theorem bits16_to_int16 (p : Nat) (h : p < 65536) : bits16 (to_int16 (p : Int)) = p := by
  unfold bits16 to_int16; omega

/-- The check of one bind fires exactly under the two conditions of the spec. -/
theorem joypad_bind_state_hit (joypad : input_device_driver) (joypad_info : rarch_joypad_info)
    (binds : Nat → Nat → retro_keybind) (port i : Nat) :
    (joypad_bind_state joypad joypad_info binds port i).1 = true ↔
      spec_bind_hit joypad joypad_info binds port i := by
  unfold joypad_bind_state spec_bind_hit spec_resolved_joykey spec_resolved_joyaxis
  by_cases h1 : (binds port i).joykey = NO_BTN <;>
  by_cases h2 : (binds port i).joyaxis = AXIS_NONE <;>
  simp only [h1, h2, ne_eq, not_true_eq_false, not_false_eq_true, if_true, if_false] <;>
  split_ifs <;> simp_all

/-- The sub-driver calls made for one bind. -/
theorem joypad_bind_state_calls (joypad : input_device_driver) (joypad_info : rarch_joypad_info)
    (binds : Nat → Nat → retro_keybind) (port i : Nat) :
    (joypad_bind_state joypad joypad_info binds port i).2 =
      (if spec_resolved_joykey joypad_info binds port i % 2 ^ 16 ≠ NO_BTN then
         [joypad_call.button joypad_info.joy_idx
            (spec_resolved_joykey joypad_info binds port i % 2 ^ 16)]
       else []) ++
      (if spec_resolved_joykey joypad_info binds port i % 2 ^ 16 ≠ NO_BTN ∧
          joypad.button joypad_info.joy_idx
            (spec_resolved_joykey joypad_info binds port i % 2 ^ 16) = true then []
       else [joypad_call.axis joypad_info.joy_idx
               (spec_resolved_joyaxis joypad_info binds port i)]) := by
  unfold joypad_bind_state spec_resolved_joykey spec_resolved_joyaxis
  by_cases h1 : (binds port i).joykey = NO_BTN <;>
  by_cases h2 : (binds port i).joyaxis = AXIS_NONE <;>
  simp only [h1, h2, ne_eq, not_true_eq_false, not_false_eq_true, if_true, if_false] <;>
  split_ifs <;> simp_all

theorem joypad_mask_step_fst (joypad : input_device_driver) (joypad_info : rarch_joypad_info)
    (binds : Nat → Nat → retro_keybind) (port : Nat) (acc : Nat × List joypad_call) (i : Nat) :
    (joypad_mask_step joypad joypad_info binds port acc i).1 =
      if (joypad_bind_state joypad joypad_info binds port i).1 then
        (acc.1 ||| (1 <<< i)) % 2 ^ 16 else acc.1 := rfl

theorem joypad_mask_step_snd (joypad : input_device_driver) (joypad_info : rarch_joypad_info)
    (binds : Nat → Nat → retro_keybind) (port : Nat) (acc : Nat × List joypad_call) (i : Nat) :
    (joypad_mask_step joypad joypad_info binds port acc i).2 =
      acc.2 ++ (joypad_bind_state joypad joypad_info binds port i).2 := rfl

/-- The loop of the bitfield query after `n` rounds. -/
theorem joypad_mask_loop (joypad : input_device_driver) (joypad_info : rarch_joypad_info)
    (binds : Nat → Nat → retro_keybind) (port : Nat) (n : Nat) :
    (∀ i, ((List.range n).foldl (joypad_mask_step joypad joypad_info binds port) (0, [])).1.testBit i
        = (decide (i < n) && decide (i < 16) &&
            (joypad_bind_state joypad joypad_info binds port i).1)) ∧
    (∀ c ∈ ((List.range n).foldl (joypad_mask_step joypad joypad_info binds port) (0, [])).2,
        ∃ i < n, c ∈ (joypad_bind_state joypad joypad_info binds port i).2) := by
  induction n with
  | zero =>
    constructor
    · intro i; simp
    · intro c hc; simp at hc
  | succ k ih =>
    rw [List.range_succ, List.foldl_append]
    simp only [List.foldl_cons, List.foldl_nil]
    constructor
    · intro i
      rw [joypad_mask_step_fst]
      cases hk : (joypad_bind_state joypad joypad_info binds port k).1
      · simp only [Bool.false_eq_true, if_false, ih.1 i]
        by_cases hik : i = k
        · subst hik; simp [hk]
        · have : (i < k + 1) ↔ (i < k) := by omega
          simp [this]
      · simp only [if_true, Nat.testBit_mod_two_pow, Nat.testBit_or, Nat.one_shiftLeft,
          Nat.testBit_two_pow, ih.1 i]
        by_cases hik : i = k
        · subst hik; simp [hk]
        · have h1 : (i < k + 1) ↔ (i < k) := by omega
          have h2 : ¬ k = i := fun e => hik e.symm
          simp only [h1, h2, decide_False, Bool.or_false]
          cases decide (i < 16) <;> simp
    · intro c hc
      rw [joypad_mask_step_snd, List.mem_append] at hc
      rcases hc with hc | hc
      · obtain ⟨i, hi, h⟩ := ih.2 c hc
        exact ⟨i, Nat.lt_succ_of_lt hi, h⟩
      · exact ⟨k, Nat.lt_succ_self k, hc⟩

/-- C9: in the result of the query with device JOYPAD and id MASK, bit `i`
(`i` in 0..15) is set exactly when the resolved joykey for `i` is not NO_BTN and
the joypad reports that button held, or |axis(joy_idx, resolved joyaxis)| / 0x8000
exceeds the axis threshold; in particular when on port 0 bind 3 has user joykey
NO_BTN and auto joykey BTN_A, button(joy_idx, BTN_A) is true and the checks of all
other binds are false, the query on port 0 returns 8. -/
theorem C9_joypad_mask_bits (joypad : input_device_driver) (joypad_info : rarch_joypad_info)
    (binds : Nat → Nat → retro_keybind) :
    (∀ port i, i < RARCH_FIRST_CUSTOM_BIND →
      ((bits16 (ps4_input_state_joypad joypad joypad_info binds port
          RETRO_DEVICE_ID_JOYPAD_MASK).1).testBit i = true ↔
        spec_bind_hit joypad joypad_info binds port i)) ∧
    (∀ BTN_A, BTN_A < 2 ^ 16 → BTN_A ≠ NO_BTN →
      (binds 0 3).joykey = NO_BTN → (joypad_info.auto_binds 3).joykey = BTN_A →
      joypad.button joypad_info.joy_idx BTN_A = true →
      (∀ i, i < RARCH_FIRST_CUSTOM_BIND → i ≠ 3 → ¬ spec_bind_hit joypad joypad_info binds 0 i) →
      (ps4_input_state_joypad joypad joypad_info binds 0 RETRO_DEVICE_ID_JOYPAD_MASK).1 = 8) := by
  have hloop := fun port =>
    (joypad_mask_loop joypad joypad_info binds port RARCH_FIRST_CUSTOM_BIND).1
  have hlt : ∀ port, ((List.range RARCH_FIRST_CUSTOM_BIND).foldl
      (joypad_mask_step joypad joypad_info binds port) (0, [])).1 < 65536 := by
    intro port
    apply Nat.lt_pow_two_of_testBit _ (n := 16)
    intro j hj
    rw [hloop port j]
    have : ¬ j < 16 := by omega
    simp [this]
  have hres : ∀ port, (ps4_input_state_joypad joypad joypad_info binds port
      RETRO_DEVICE_ID_JOYPAD_MASK).1 = to_int16 (((List.range RARCH_FIRST_CUSTOM_BIND).foldl
        (joypad_mask_step joypad joypad_info binds port) (0, [])).1 : Int) := by
    intro port
    simp [ps4_input_state_joypad]
  refine ⟨?_, ?_⟩
  · intro port i hi
    rw [hres, bits16_to_int16 _ (hlt port), hloop port i, ← joypad_bind_state_hit]
    have : i < 16 := hi
    simp [hi, this]
  · intro BTN_A hA1 hA2 hb ha hbtn hothers
    have h8 : ((List.range RARCH_FIRST_CUSTOM_BIND).foldl
        (joypad_mask_step joypad joypad_info binds 0) (0, [])).1 = 8 := by
      apply Nat.eq_of_testBit_eq
      intro i
      rw [hloop 0 i]
      by_cases hi : i < RARCH_FIRST_CUSTOM_BIND
      · have hi16 : i < 16 := hi
        by_cases h3 : i = 3
        · subst h3
          have : (joypad_bind_state joypad joypad_info binds 0 3).1 = true := by
            rw [joypad_bind_state_hit]
            left
            have hk : spec_resolved_joykey joypad_info binds 0 3 = BTN_A := by
              simp [spec_resolved_joykey, hb, ha]
            rw [hk, Nat.mod_eq_of_lt hA1]
            exact ⟨hA2, hbtn⟩
          rw [this]; decide
        · have : (joypad_bind_state joypad joypad_info binds 0 i).1 = false := by
            cases hv : (joypad_bind_state joypad joypad_info binds 0 i).1 with
            | false => rfl
            | true => exact absurd ((joypad_bind_state_hit _ _ _ _ _).mp hv) (hothers i hi h3)
          rw [this]
          have h8i : (8 : Nat).testBit i = false := by
            have : (8 : Nat) = 2 ^ 3 := by norm_num
            rw [this, Nat.testBit_two_pow]
            simp [Ne.symm h3]
          simp [h8i]
      · have hi16 : ¬ i < 16 := hi
        have h8i : (8 : Nat).testBit i = false := by
          apply Nat.testBit_lt_two_pow
          have : 16 ≤ i := by omega
          calc 8 < 2 ^ 16 := by norm_num
            _ ≤ 2 ^ i := Nat.pow_le_pow_right (by norm_num) this
        simp [hi, hi16, h8i]
    rw [hres, h8]
    decide

/-- Instance of C9 at scenario S5 with BTN_A = 1. -/
theorem C9_joypad_mask_bits_witness :
    (bits16 (ps4_input_state_joypad ⟨fun _ k => decide (k = 1), fun _ _ => 0⟩
        ⟨0, fun i => if i = 3 then ⟨1, AXIS_NONE⟩ else ⟨NO_BTN, AXIS_NONE⟩, 1 / 2⟩
        (fun _ _ => ⟨NO_BTN, AXIS_NONE⟩) 0 RETRO_DEVICE_ID_JOYPAD_MASK).1).testBit 3 = true ∧
    (ps4_input_state_joypad ⟨fun _ k => decide (k = 1), fun _ _ => 0⟩
        ⟨0, fun i => if i = 3 then ⟨1, AXIS_NONE⟩ else ⟨NO_BTN, AXIS_NONE⟩, 1 / 2⟩
        (fun _ _ => ⟨NO_BTN, AXIS_NONE⟩) 0 RETRO_DEVICE_ID_JOYPAD_MASK).1 = 8 :=
  ⟨((C9_joypad_mask_bits ⟨fun _ k => decide (k = 1), fun _ _ => 0⟩
        ⟨0, fun i => if i = 3 then ⟨1, AXIS_NONE⟩ else ⟨NO_BTN, AXIS_NONE⟩, 1 / 2⟩
        (fun _ _ => ⟨NO_BTN, AXIS_NONE⟩)).1 0 3 (by decide)).mpr
      (Or.inl ⟨by decide, by decide⟩),
   (C9_joypad_mask_bits ⟨fun _ k => decide (k = 1), fun _ _ => 0⟩
        ⟨0, fun i => if i = 3 then ⟨1, AXIS_NONE⟩ else ⟨NO_BTN, AXIS_NONE⟩, 1 / 2⟩
        (fun _ _ => ⟨NO_BTN, AXIS_NONE⟩)).2 1 (by decide) (by decide) rfl rfl rfl
      (by
        intro i _ h3
        simp [spec_bind_hit, spec_resolved_joykey, spec_resolved_joyaxis, h3, NO_BTN])⟩

/-- With `K mod 2^16 = NO_BTN` the check of a bind does not use the button function. -/
theorem joypad_bind_state_no_button (joypad : input_device_driver) (button' : Nat → Nat → Bool)
    (joypad_info : rarch_joypad_info) (binds : Nat → Nat → retro_keybind) (port i : Nat)
    (h1 : (binds port i).joykey = NO_BTN) (h2 : (joypad_info.auto_binds i).joykey = NO_BTN) :
    joypad_bind_state ⟨button', joypad.axis⟩ joypad_info binds port i =
      joypad_bind_state joypad joypad_info binds port i ∧
    ∀ c ∈ (joypad_bind_state joypad joypad_info binds port i).2,
      ∀ j k, c ≠ joypad_call.button j k := by
  have hN : NO_BTN % 2 ^ 16 = NO_BTN := by decide
  constructor
  · simp only [joypad_bind_state, h1, h2, ne_eq, not_true_eq_false, if_false, hN]
  · intro c hc j k
    simp only [joypad_bind_state, h1, h2, ne_eq, not_true_eq_false, if_false, hN,
      Bool.false_eq_true, List.nil_append, List.mem_singleton] at hc
    rw [hc]
    exact fun h => joypad_call.noConfusion h

theorem foldl_congr_mem {α β : Type} (f g : β → α → β) (l : List α)
    (h : ∀ a ∈ l, ∀ b, f b a = g b a) : ∀ b, l.foldl f b = l.foldl g b := by
  induction l with
  | nil => intro b; rfl
  | cons a t ih =>
    intro b
    simp only [List.foldl_cons]
    rw [h a (List.mem_cons_self a t) b]
    exact ih (fun x hx => h x (List.mem_cons_of_mem a hx)) _

/-- C10: in a JOYPAD query the button id handed to the sub-driver's button check is
the user joykey when that is not NO_BTN and the auto joykey otherwise (as the 16-bit
value the check takes), and the axis encoding handed to the axis read is the user
joyaxis when that is not AXIS_NONE and the auto joyaxis otherwise, each resolved on
its own; when both joykeys are NO_BTN no button call is made and the result is the
same for every button function. This holds for the single-id query and for every
bind of the bitfield query. -/
theorem C10_binding_fallback (joypad : input_device_driver) (joypad_info : rarch_joypad_info)
    (binds : Nat → Nat → retro_keybind) (port id : Nat) :
    (id ≠ RETRO_DEVICE_ID_JOYPAD_MASK →
      (ps4_input_state_joypad joypad joypad_info binds port id).2 =
        (if spec_resolved_joykey joypad_info binds port id % 2 ^ 16 ≠ NO_BTN then
           [joypad_call.button joypad_info.joy_idx
              (spec_resolved_joykey joypad_info binds port id % 2 ^ 16)]
         else []) ++
        (if spec_resolved_joykey joypad_info binds port id % 2 ^ 16 ≠ NO_BTN ∧
            joypad.button joypad_info.joy_idx
              (spec_resolved_joykey joypad_info binds port id % 2 ^ 16) = true then []
         else [joypad_call.axis joypad_info.joy_idx
                 (spec_resolved_joyaxis joypad_info binds port id)])) ∧
    (id ≠ RETRO_DEVICE_ID_JOYPAD_MASK →
      (binds port id).joykey = NO_BTN → (joypad_info.auto_binds id).joykey = NO_BTN →
      (∀ c ∈ (ps4_input_state_joypad joypad joypad_info binds port id).2,
        ∀ j k, c ≠ joypad_call.button j k) ∧
      ∀ button' : Nat → Nat → Bool,
        (ps4_input_state_joypad ⟨button', joypad.axis⟩ joypad_info binds port id).1 =
          (ps4_input_state_joypad joypad joypad_info binds port id).1) ∧
    (∀ c ∈ (ps4_input_state_joypad joypad joypad_info binds port RETRO_DEVICE_ID_JOYPAD_MASK).2,
      ∃ i < RARCH_FIRST_CUSTOM_BIND,
        c = joypad_call.button joypad_info.joy_idx
              (spec_resolved_joykey joypad_info binds port i % 2 ^ 16) ∨
        c = joypad_call.axis joypad_info.joy_idx
              (spec_resolved_joyaxis joypad_info binds port i)) ∧
    ((∀ i < RARCH_FIRST_CUSTOM_BIND,
        (binds port i).joykey = NO_BTN ∧ (joypad_info.auto_binds i).joykey = NO_BTN) →
      (∀ c ∈ (ps4_input_state_joypad joypad joypad_info binds port
            RETRO_DEVICE_ID_JOYPAD_MASK).2,
        ∀ j k, c ≠ joypad_call.button j k) ∧
      ∀ button' : Nat → Nat → Bool,
        (ps4_input_state_joypad ⟨button', joypad.axis⟩ joypad_info binds port
            RETRO_DEVICE_ID_JOYPAD_MASK).1 =
          (ps4_input_state_joypad joypad joypad_info binds port
            RETRO_DEVICE_ID_JOYPAD_MASK).1) := by
  refine ⟨?_, ?_, ?_, ?_⟩
  · intro hid
    simp only [ps4_input_state_joypad, hid, if_false]
    exact joypad_bind_state_calls joypad joypad_info binds port id
  · intro hid h1 h2
    obtain ⟨e, hc⟩ := joypad_bind_state_no_button joypad joypad.button joypad_info binds port id h1 h2
    constructor
    · simp only [ps4_input_state_joypad, hid, if_false]
      exact hc
    · intro button'
      simp only [ps4_input_state_joypad, hid, if_false]
      rw [(joypad_bind_state_no_button joypad button' joypad_info binds port id h1 h2).1]
  · intro c hc
    simp only [ps4_input_state_joypad, if_true] at hc
    obtain ⟨i, hi, h⟩ := (joypad_mask_loop joypad joypad_info binds port
      RARCH_FIRST_CUSTOM_BIND).2 c hc
    refine ⟨i, hi, ?_⟩
    rw [joypad_bind_state_calls] at h
    simp only [List.mem_append] at h
    rcases h with h | h
    · left
      split_ifs at h <;> simp_all
    · right
      split_ifs at h <;> simp_all
  · intro hall
    constructor
    · intro c hc j k
      simp only [ps4_input_state_joypad, if_true] at hc
      obtain ⟨i, hi, h⟩ := (joypad_mask_loop joypad joypad_info binds port
        RARCH_FIRST_CUSTOM_BIND).2 c hc
      exact (joypad_bind_state_no_button joypad joypad.button joypad_info binds port i
        (hall i hi).1 (hall i hi).2).2 c h j k
    · intro button'
      simp only [ps4_input_state_joypad, if_true]
      rw [foldl_congr_mem (joypad_mask_step ⟨button', joypad.axis⟩ joypad_info binds port)
        (joypad_mask_step joypad joypad_info binds port) (List.range RARCH_FIRST_CUSTOM_BIND)]
      intro i hi acc
      have hi' : i < RARCH_FIRST_CUSTOM_BIND := List.mem_range.mp hi
      unfold joypad_mask_step
      rw [(joypad_bind_state_no_button joypad button' joypad_info binds port i
        (hall i hi').1 (hall i hi').2).1]

/-- Instance of C10: bind 2 has no user joykey, so the auto joykey 7 is checked. -/
theorem C10_binding_fallback_witness :
    (ps4_input_state_joypad ⟨fun _ k => decide (k = 7), fun _ a => if a = 9 then 20000 else 0⟩
        ⟨0, fun _ => ⟨7, 9⟩, 1 / 2⟩
        (fun _ i => if i = 2 then ⟨NO_BTN, AXIS_NONE⟩ else ⟨NO_BTN, 5⟩) 0 2).2 =
      [joypad_call.button 0 7] :=
  (C10_binding_fallback ⟨fun _ k => decide (k = 7), fun _ a => if a = 9 then 20000 else 0⟩
    ⟨0, fun _ => ⟨7, 9⟩, 1 / 2⟩
    (fun _ i => if i = 2 then ⟨NO_BTN, AXIS_NONE⟩ else ⟨NO_BTN, 5⟩) 0 2).1 (by decide)

/-! ## Theorems: queries -/

/-- The single-id JOYPAD query returns 1 when the check of the bind fires and 0
otherwise. -/
theorem joypad_single_result (joypad : input_device_driver) (joypad_info : rarch_joypad_info)
    (binds : Nat → Nat → retro_keybind) (port id : Nat)
    (hid : id ≠ RETRO_DEVICE_ID_JOYPAD_MASK) :
    (ps4_input_state_joypad joypad joypad_info binds port id).1 =
      if (joypad_bind_state joypad joypad_info binds port id).1 then 1 else 0 := by
  simp only [ps4_input_state_joypad, hid, if_false]

/-- C11: for a JOYPAD single-id query whose digital check does not fire, with `v` the
value the axis read returns and `t` the axis threshold, the query returns a nonzero
value exactly when |v| / 32768 > t, so exact equality returns 0; with t = 0.5,
v = 0x4000 returns 0 and v = 0x4001 returns nonzero. -/
theorem C11_axis_threshold_boundary (joypad : input_device_driver)
    (joypad_info : rarch_joypad_info) (binds : Nat → Nat → retro_keybind) (port id : Nat)
    (v : Int)
    (hid : id ≠ RETRO_DEVICE_ID_JOYPAD_MASK)
    (hdigital : ¬ (spec_resolved_joykey joypad_info binds port id % 2 ^ 16 ≠ NO_BTN ∧
      joypad.button joypad_info.joy_idx
        (spec_resolved_joykey joypad_info binds port id % 2 ^ 16) = true))
    (hv : joypad.axis joypad_info.joy_idx (spec_resolved_joyaxis joypad_info binds port id) = v) :
    ((ps4_input_state_joypad joypad joypad_info binds port id).1 ≠ 0 ↔
      ((v.natAbs : ℚ) / 32768 > joypad_info.axis_threshold)) ∧
    ((v.natAbs : ℚ) / 32768 = joypad_info.axis_threshold →
      (ps4_input_state_joypad joypad joypad_info binds port id).1 = 0) ∧
    (joypad_info.axis_threshold = 1 / 2 → v = 0x4000 →
      (ps4_input_state_joypad joypad joypad_info binds port id).1 = 0) ∧
    (joypad_info.axis_threshold = 1 / 2 → v = 0x4001 →
      (ps4_input_state_joypad joypad joypad_info binds port id).1 ≠ 0) := by
  have hhit : (joypad_bind_state joypad joypad_info binds port id).1 = true ↔
      ((v.natAbs : ℚ) / 32768 > joypad_info.axis_threshold) := by
    rw [joypad_bind_state_hit]
    unfold spec_bind_hit
    rw [hv]
    constructor
    · rintro (h | h)
      · exact absurd h hdigital
      · exact h
    · intro h; exact Or.inr h
  have hiff : (ps4_input_state_joypad joypad joypad_info binds port id).1 ≠ 0 ↔
      ((v.natAbs : ℚ) / 32768 > joypad_info.axis_threshold) := by
    rw [joypad_single_result joypad joypad_info binds port id hid, ← hhit]
    cases (joypad_bind_state joypad joypad_info binds port id).1 <;> simp
  refine ⟨hiff, ?_, ?_, ?_⟩
  · intro heq
    by_contra hne
    have := hiff.mp hne
    rw [heq] at this
    exact lt_irrefl _ this
  · intro ht h4
    by_contra hne
    have := hiff.mp hne
    rw [ht, h4] at this
    norm_num at this
  · intro ht h4
    rw [hiff, ht, h4]
    norm_num

/-- Instance of C11 at t = 0.5 with axis values 0x4000 and 0x4001. -/
theorem C11_axis_threshold_boundary_witness :
    (ps4_input_state_joypad ⟨fun _ _ => false, fun _ a => if a = 9 then 0x4000 else 0⟩
        ⟨0, fun _ => ⟨NO_BTN, 9⟩, 1 / 2⟩ (fun _ _ => ⟨NO_BTN, AXIS_NONE⟩) 0 2).1 = 0 ∧
    (ps4_input_state_joypad ⟨fun _ _ => false, fun _ a => if a = 9 then 0x4001 else 0⟩
        ⟨0, fun _ => ⟨NO_BTN, 9⟩, 1 / 2⟩ (fun _ _ => ⟨NO_BTN, AXIS_NONE⟩) 0 2).1 ≠ 0 :=
  ⟨(C11_axis_threshold_boundary ⟨fun _ _ => false, fun _ a => if a = 9 then 0x4000 else 0⟩
      ⟨0, fun _ => ⟨NO_BTN, 9⟩, 1 / 2⟩ (fun _ _ => ⟨NO_BTN, AXIS_NONE⟩) 0 2 0x4000
      (by decide) (by decide) (by decide)).2.2.1 rfl rfl,
   (C11_axis_threshold_boundary ⟨fun _ _ => false, fun _ a => if a = 9 then 0x4001 else 0⟩
      ⟨0, fun _ => ⟨NO_BTN, 9⟩, 1 / 2⟩ (fun _ _ => ⟨NO_BTN, AXIS_NONE⟩) 0 2 0x4001
      (by decide) (by decide) (by decide)).2.2.2 rfl rfl⟩

/-- C12: a query with device KEYBOARD returns 0 for every id >= RETROK_LAST; for
id < RETROK_LAST, with `rarch_keysym_lut[id]` a scancode of the array, it returns 1
when `keyboard_state[rarch_keysym_lut[id]]` is true and 0 otherwise; whenever the
query has a result, it is 1 if id < RETROK_LAST and that cell is true, else 0. -/
theorem C12_keyboard_query (RETROK_LAST : Nat) (rarch_keysym_lut : Nat → Nat)
    (st : ps4_input) (id : Nat) :
    (RETROK_LAST ≤ id → ps4_input_state_keyboard RETROK_LAST rarch_keysym_lut st id = some 0) ∧
    (id < RETROK_LAST → rarch_keysym_lut id ≤ PS4_MAX_SCANCODE →
      ps4_input_state_keyboard RETROK_LAST rarch_keysym_lut st id =
        some (if st.keyboard_state (rarch_keysym_lut id) = true then 1 else 0)) ∧
    (∀ r, ps4_input_state_keyboard RETROK_LAST rarch_keysym_lut st id = some r →
      r = if id < RETROK_LAST ∧ st.keyboard_state (rarch_keysym_lut id) = true then 1 else 0) := by
  refine ⟨?_, ?_, ?_⟩
  · intro h
    have : ¬ id < RETROK_LAST := by omega
    simp [ps4_input_state_keyboard, this]
  · intro h hl
    simp [ps4_input_state_keyboard, h, ks_read, hl]
  · intro r hr
    by_cases h : id < RETROK_LAST
    · by_cases hl : rarch_keysym_lut id ≤ PS4_MAX_SCANCODE
      · simp [ps4_input_state_keyboard, h, ks_read, hl] at hr
        simp [h, ← hr]
      · simp [ps4_input_state_keyboard, h, ks_read, hl] at hr
    · simp [ps4_input_state_keyboard, h] at hr
      simp [h, ← hr]

/-- Instance of C12: key id 97 looks up scancode 4, which is pressed. -/
theorem C12_keyboard_query_witness :
    ps4_input_state_keyboard 324 (fun id => if id = 97 then 4 else 0)
      { ps4_input_initialize with keyboard_state := fun s => decide (s = 4) } 97 = some 1 :=
  (C12_keyboard_query 324 (fun id => if id = 97 then 4 else 0)
    { ps4_input_initialize with keyboard_state := fun s => decide (s = 4) } 97).2.1
    (by decide) (by decide)

/-- C19: for every joypad, joypad_info, binding tables and port and every `i` in
0..RARCH_FIRST_CUSTOM_BIND-1, bit `i` of the result of the JOYPAD query with
id = MASK is set exactly when the JOYPAD query with id = `i` returns a nonzero
value. -/
theorem C19_mask_single_agreement (joypad : input_device_driver)
    (joypad_info : rarch_joypad_info) (binds : Nat → Nat → retro_keybind) (port i : Nat)
    (hi : i < RARCH_FIRST_CUSTOM_BIND) :
    (bits16 (ps4_input_state_joypad joypad joypad_info binds port
        RETRO_DEVICE_ID_JOYPAD_MASK).1).testBit i = true ↔
      (ps4_input_state_joypad joypad joypad_info binds port i).1 ≠ 0 := by
  have hne : i ≠ RETRO_DEVICE_ID_JOYPAD_MASK := by
    unfold RARCH_FIRST_CUSTOM_BIND at hi
    unfold RETRO_DEVICE_ID_JOYPAD_MASK
    omega
  have hloop := (joypad_mask_loop joypad joypad_info binds port RARCH_FIRST_CUSTOM_BIND).1
  have hlt : ((List.range RARCH_FIRST_CUSTOM_BIND).foldl
      (joypad_mask_step joypad joypad_info binds port) (0, [])).1 < 65536 := by
    apply Nat.lt_pow_two_of_testBit _ (n := 16)
    intro j hj
    rw [hloop j]
    have : ¬ j < 16 := by omega
    simp [this]
  have hres : (ps4_input_state_joypad joypad joypad_info binds port
      RETRO_DEVICE_ID_JOYPAD_MASK).1 = to_int16 (((List.range RARCH_FIRST_CUSTOM_BIND).foldl
        (joypad_mask_step joypad joypad_info binds port) (0, [])).1 : Int) := by
    simp [ps4_input_state_joypad]
  rw [hres, bits16_to_int16 _ hlt, hloop i, joypad_single_result joypad joypad_info binds port i hne]
  have h16 : i < 16 := hi
  cases (joypad_bind_state joypad joypad_info binds port i).1 <;> simp [hi, h16]

/-- Instance of C19 at bind 3 of scenario S5. -/
theorem C19_mask_single_agreement_witness :
    (bits16 (ps4_input_state_joypad ⟨fun _ k => decide (k = 1), fun _ _ => 0⟩
        ⟨0, fun i => if i = 3 then ⟨1, AXIS_NONE⟩ else ⟨NO_BTN, AXIS_NONE⟩, 1 / 2⟩
        (fun _ _ => ⟨NO_BTN, AXIS_NONE⟩) 0 RETRO_DEVICE_ID_JOYPAD_MASK).1).testBit 3 = true ↔
      (ps4_input_state_joypad ⟨fun _ k => decide (k = 1), fun _ _ => 0⟩
        ⟨0, fun i => if i = 3 then ⟨1, AXIS_NONE⟩ else ⟨NO_BTN, AXIS_NONE⟩, 1 / 2⟩
        (fun _ _ => ⟨NO_BTN, AXIS_NONE⟩) 0 3).1 ≠ 0 :=
  C19_mask_single_agreement ⟨fun _ k => decide (k = 1), fun _ _ => 0⟩
    ⟨0, fun i => if i = 3 then ⟨1, AXIS_NONE⟩ else ⟨NO_BTN, AXIS_NONE⟩, 1 / 2⟩
    (fun _ _ => ⟨NO_BTN, AXIS_NONE⟩) 0 3 (by decide)

/-! ## Theorems: the two phases of the edge detector -/

theorem and_mod_two_pow_of_lt (m b n : Nat) (hb : b < 2 ^ n) : (m % 2 ^ n) &&& b = m &&& b := by
  apply Nat.eq_of_testBit_eq
  intro i
  simp only [Nat.testBit_and, Nat.testBit_mod_two_pow]
  by_cases hi : i < n
  · simp [hi]
  · have : b.testBit i = false := by
      apply Nat.testBit_lt_two_pow
      exact Nat.lt_of_lt_of_le hb (Nat.pow_le_pow_right (by decide) (by omega))
    simp [this]

theorem modifier_lut_bits : ∀ e ∈ modifier_lut, e.2 < 2 ^ 32 := by
  decide

theorem modifier_lut_nodup : (modifier_lut.map Prod.fst).Nodup := by
  decide

theorem is_modifier_iff (s : Nat) : is_modifier s = true ↔ ∃ e ∈ modifier_lut, e.1 = s := by
  unfold is_modifier
  simp only [List.contains_iff_exists_mem_beq, List.mem_map, beq_iff_eq]
  constructor
  · rintro ⟨a, ⟨e, he, rfl⟩, h⟩
    exact ⟨e, he, h.symm⟩
  · rintro ⟨e, he, rfl⟩
    exact ⟨e.1, ⟨e, he, rfl⟩, rfl⟩

/-- One row of the modifier loop, written with the edge of the spec. -/
theorem modifier_step_edge (translate : Nat → Nat) (m : Nat) (st : ps4_input)
    (tr : List keyboard_event) (k b : Nat) (hk : k ≤ PS4_MAX_SCANCODE) (hb : b < 2 ^ 32) :
    modifier_step translate (m % 2 ^ 32) (m % 2 ^ 16) (st, tr) (k, b) =
      some ({ st with keyboard_state :=
                Function.update st.keyboard_state k (decide (m &&& b ≠ 0)) },
            tr ++ (spec_modifier_edge translate m st.keyboard_state (k, b)).toList) := by
  rw [modifier_step_eq translate _ _ st tr k b hk, and_mod_two_pow_of_lt m b 32 hb]
  unfold spec_modifier_edge
  by_cases h : decide (m &&& b ≠ 0) = st.keyboard_state k
  · simp only [h, if_true, Option.toList, List.append_nil]
    rw [Function.update_eq_self]
  · simp only [h, if_false, Option.toList]

/-- The modifier loop over a table with distinct in-range scancodes. -/
theorem modifier_fold_spec (translate : Nat → Nat) (m : Nat) :
    ∀ (l : List (Nat × Nat)), (l.map Prod.fst).Nodup →
      (∀ e ∈ l, e.1 ≤ PS4_MAX_SCANCODE ∧ e.2 < 2 ^ 32) →
      ∀ (st : ps4_input) (tr : List keyboard_event),
        ∃ ks, l.foldlM (modifier_step translate (m % 2 ^ 32) (m % 2 ^ 16)) (st, tr) =
            some ({ st with keyboard_state := ks },
                  tr ++ l.filterMap (spec_modifier_edge translate m st.keyboard_state)) ∧
          (∀ e ∈ l, ks e.1 = decide (m &&& e.2 ≠ 0)) ∧
          (∀ s, s ∉ l.map Prod.fst → ks s = st.keyboard_state s) := by
  intro l
  induction l with
  | nil =>
    intro _ _ st tr
    exact ⟨st.keyboard_state, by simp, by simp, fun s _ => rfl⟩
  | cons e t ih =>
    intro hnd hle st tr
    obtain ⟨k, b⟩ := e
    have hk := (hle (k, b) (List.mem_cons_self _ _)).1
    have hb := (hle (k, b) (List.mem_cons_self _ _)).2
    rw [List.map_cons, List.nodup_cons] at hnd
    obtain ⟨ks, e1, p1, p2⟩ := ih hnd.2 (fun x hx => hle x (List.mem_cons_of_mem _ hx))
      { st with keyboard_state := Function.update st.keyboard_state k (decide (m &&& b ≠ 0)) }
      (tr ++ (spec_modifier_edge translate m st.keyboard_state (k, b)).toList)
    have hcongr : t.filterMap (spec_modifier_edge translate m
          (Function.update st.keyboard_state k (decide (m &&& b ≠ 0)))) =
        t.filterMap (spec_modifier_edge translate m st.keyboard_state) := by
      apply List.filterMap_congr
      intro x hx
      have hne : x.1 ≠ k := by
        intro h
        apply hnd.1
        rw [← h]
        exact List.mem_map.mpr ⟨x, hx, rfl⟩
      unfold spec_modifier_edge
      rw [Function.update_noteq hne]
    refine ⟨ks, ?_, ?_, ?_⟩
    · rw [List.foldlM_cons, modifier_step_edge translate m st tr k b hk hb]
      simp only [Option.bind_eq_bind, Option.some_bind]
      rw [e1]
      simp only [hcongr, List.append_assoc]
      congr 2
      rw [List.filterMap_cons]
      cases spec_modifier_edge translate m st.keyboard_state (k, b) <;> simp [Option.toList]
    · intro x hx
      rcases List.mem_cons.mp hx with h | h
      · rw [h]
        simp only
        rw [p2 k hnd.1]
        simp
      · exact p1 x h
    · intro s hs
      rw [List.map_cons, List.mem_cons, not_or] at hs
      rw [p2 s hs.2]
      exact Function.update_noteq hs.1 _ _

/-- The modifier phase: it always completes, emits the edges of the spec, sets the
cell of every row to its mask bit and changes nothing else. -/
theorem modifier_phase_spec (translate : Nat → Nat) (m : Nat) (st : ps4_input)
    (tr : List keyboard_event) :
    ∃ ks, modifier_phase translate (m % 2 ^ 32) (m % 2 ^ 16) (st, tr) =
        some ({ st with keyboard_state := ks },
              tr ++ spec_modifier_events translate m st.keyboard_state) ∧
      (∀ e ∈ modifier_lut, ks e.1 = decide (m &&& e.2 ≠ 0)) ∧
      (∀ s, is_modifier s = false → ks s = st.keyboard_state s) := by
  obtain ⟨ks, e1, p1, p2⟩ := modifier_fold_spec translate m modifier_lut modifier_lut_nodup
    (fun e he => ⟨(modifier_lut_entries e he).1, modifier_lut_bits e he⟩) st tr
  refine ⟨ks, e1, p1, fun s hs => p2 s ?_⟩
  intro hmem
  obtain ⟨e, he, h⟩ := List.mem_map.mp hmem
  have : is_modifier s = true := (is_modifier_iff s).mpr ⟨e, he, h⟩
  rw [hs] at this
  exact absurd this (by decide)

/-- Loop rule for a fallible counted loop that is known to have completed. -/
theorem foldlM_range_some {σ : Type} (f : σ → Nat → Option σ) (P : Nat → σ → Prop) (n : Nat)
    (hstep : ∀ i < n, ∀ s s', P i s → f s i = some s' → P (i + 1) s') :
    ∀ s s', P 0 s → (List.range n).foldlM f s = some s' → P n s' := by
  induction n with
  | zero =>
    intro s s' hs h
    simp only [List.range_zero, List.foldlM_nil, Option.pure_def, Option.some.injEq] at h
    rw [← h]; exact hs
  | succ k ih =>
    intro s s' hs h
    rw [List.range_succ, List.foldlM_append] at h
    simp only [Option.bind_eq_bind, Option.bind_eq_some] at h
    obtain ⟨s1, e1, e2⟩ := h
    have p1 := ih (fun i hi => hstep i (Nat.lt_succ_of_lt hi)) s s1 hs e1
    simp only [List.foldlM_cons, List.foldlM_nil, Option.bind_eq_bind, Option.bind_eq_some,
      Option.pure_def, Option.some.injEq, exists_eq_right] at e2
    exact hstep k (Nat.lt_succ_self k) s1 s' p1 e2

/-- A round of the slot loop that completes has the result of `slot_step_eq`. -/
theorem slot_step_some (translate : Nat → Nat) (keyCode : Nat → Nat) (mod : Nat) (st : ps4_input)
    (tr : List keyboard_event) (i : Nat) (r : ps4_input × List keyboard_event)
    (h : slot_step translate keyCode mod (st, tr) i = some r) :
    r = (if keyCode i = st.prev_keys i then (st, tr)
        else
          ({ st with
             keyboard_state :=
               (fun ks1 => if keyCode i ≠ 0 then Function.update ks1 (keyCode i) true else ks1)
                 (if st.prev_keys i ≠ 0 then Function.update st.keyboard_state (st.prev_keys i) false
                  else st.keyboard_state)
             prev_keys := Function.update st.prev_keys i (keyCode i) },
           tr ++ (if st.prev_keys i ≠ 0 then
                    [⟨false, st.prev_keys i, translate (st.prev_keys i), 0, mod,
                      retro_device.KEYBOARD⟩] else [])
              ++ (if keyCode i ≠ 0 then
                    [⟨true, keyCode i, translate (keyCode i), 0, mod, retro_device.KEYBOARD⟩]
                  else []))) := by
  by_cases hp : st.prev_keys i ≤ PS4_MAX_SCANCODE
  · by_cases hc : keyCode i ≤ PS4_MAX_SCANCODE
    · rw [slot_step_eq translate keyCode mod st tr i hp hc] at h
      exact (Option.some.inj h).symm
    · have hc0 : keyCode i ≠ 0 := by
        intro e; rw [e] at hc; exact hc (Nat.zero_le _)
      have hne : keyCode i ≠ st.prev_keys i := by
        intro e; rw [e] at hc; exact hc hp
      exfalso
      by_cases h2 : st.prev_keys i = 0 <;>
        simp [slot_step, ks_write, hne, h2, hc0, hp, hc] at h
  · have hp0 : st.prev_keys i ≠ 0 := by
      intro e; rw [e] at hp; exact hp (Nat.zero_le _)
    by_cases hsame : keyCode i = st.prev_keys i
    · simp only [slot_step, ne_eq, hsame, not_true_eq_false, if_false] at h
      rw [if_pos hsame]
      exact (Option.some.inj h).symm
    · exfalso
      simp [slot_step, ks_write, hsame, hp0, hp] at h

/-- The events the code emits in a changed slot are the edges of the spec. -/
theorem spec_slot_edges_eq (translate : Nat → Nat) (keyCode prev : Nat → Nat) (m i : Nat) :
    spec_slot_edges translate keyCode prev m i =
      if keyCode i = prev i then []
      else
        (if prev i ≠ 0 then
            [⟨false, prev i, translate (prev i), 0, m % 2 ^ 16, retro_device.KEYBOARD⟩] else [])
          ++ (if keyCode i ≠ 0 then
            [⟨true, keyCode i, translate (keyCode i), 0, m % 2 ^ 16, retro_device.KEYBOARD⟩]
            else []) := by
  unfold spec_slot_edges
  by_cases h1 : keyCode i = prev i <;> by_cases h2 : prev i = 0 <;>
    by_cases h3 : keyCode i = 0 <;> simp [h1, h2, h3]

/-- A slot phase that completes: its events, the slots it leaves in `prev_keys`
and the cells of `keyboard_state` it may have changed. -/
theorem slot_phase_some (translate : Nat → Nat) (keyCode : Nat → Nat) (m : Nat) (st : ps4_input)
    (tr : List keyboard_event) (r : ps4_input × List keyboard_event)
    (h : slot_phase translate keyCode (m % 2 ^ 16) (st, tr) = some r) :
    r.2 = tr ++ spec_slot_events translate keyCode st.prev_keys m ∧
    (∀ j < KEYBOARD_MAX_HISTORY, r.1.prev_keys j = keyCode j) ∧
    (∀ j, KEYBOARD_MAX_HISTORY ≤ j → r.1.prev_keys j = st.prev_keys j) ∧
    (∀ s, r.1.keyboard_state s ≠ st.keyboard_state s →
      s ≠ 0 ∧ ∃ j < KEYBOARD_MAX_HISTORY, s = st.prev_keys j ∨ s = keyCode j) ∧
    r.1 = { st with keyboard_state := r.1.keyboard_state, prev_keys := r.1.prev_keys } := by
  have key := foldlM_range_some (slot_step translate keyCode (m % 2 ^ 16))
    (fun i acc =>
      acc.2 = tr ++ (List.range i).flatMap (spec_slot_edges translate keyCode st.prev_keys m) ∧
      (∀ j < i, acc.1.prev_keys j = keyCode j) ∧
      (∀ j, i ≤ j → acc.1.prev_keys j = st.prev_keys j) ∧
      (∀ s, acc.1.keyboard_state s ≠ st.keyboard_state s →
        s ≠ 0 ∧ ∃ j < i, s = st.prev_keys j ∨ s = keyCode j) ∧
      acc.1 = { st with keyboard_state := acc.1.keyboard_state, prev_keys := acc.1.prev_keys })
    KEYBOARD_MAX_HISTORY ?_ (st, tr) r ?_ h
  · exact key
  · intro i _ acc acc' hP hstep
    obtain ⟨s1, t1⟩ := acc
    obtain ⟨hev, hlow, hhigh, hks, hrest⟩ := hP
    simp only at hev hlow hhigh hks hrest
    have hpi : s1.prev_keys i = st.prev_keys i := hhigh i (Nat.le_refl i)
    have hr := slot_step_some translate keyCode (m % 2 ^ 16) s1 t1 i acc' hstep
    have hevs : (List.range (i + 1)).flatMap (spec_slot_edges translate keyCode st.prev_keys m) =
        (List.range i).flatMap (spec_slot_edges translate keyCode st.prev_keys m) ++
          spec_slot_edges translate keyCode st.prev_keys m i := by
      rw [List.range_succ, List.flatMap_append, List.flatMap_singleton]
    by_cases hsame : keyCode i = s1.prev_keys i
    · rw [if_pos hsame] at hr
      subst hr
      refine ⟨?_, ?_, ?_, ?_, hrest⟩
      · show t1 = _
        rw [hevs, spec_slot_edges_eq, if_pos (hsame.trans hpi), List.append_nil]
        exact hev
      · intro j hj
        rcases Nat.lt_succ_iff_lt_or_eq.mp hj with hlt | heq
        · exact hlow j hlt
        · rw [heq]; exact hsame.symm
      · intro j hj; exact hhigh j (by omega)
      · intro s hs
        obtain ⟨h0, j, hj, hj2⟩ := hks s hs
        exact ⟨h0, j, Nat.lt_succ_of_lt hj, hj2⟩
    · rw [if_neg hsame] at hr
      subst hr
      refine ⟨?_, ?_, ?_, ?_, ?_⟩
      · show t1 ++ _ ++ _ = _
        rw [hevs, spec_slot_edges_eq, hev, hpi,
          if_neg (show ¬ keyCode i = st.prev_keys i from fun e => hsame (e.trans hpi.symm))]
        simp only [List.append_assoc]
      · intro j hj
        show Function.update s1.prev_keys i (keyCode i) j = keyCode j
        rcases Nat.lt_succ_iff_lt_or_eq.mp hj with hlt | heq
        · rw [Function.update_noteq (Nat.ne_of_lt hlt)]; exact hlow j hlt
        · rw [heq, Function.update_same]
      · intro j hj
        show Function.update s1.prev_keys i (keyCode i) j = st.prev_keys j
        rw [Function.update_noteq (by omega)]
        exact hhigh j (by omega)
      · intro s hs
        have hs' : (fun ks1 => if keyCode i ≠ 0 then Function.update ks1 (keyCode i) true else ks1)
            (if s1.prev_keys i ≠ 0 then Function.update s1.keyboard_state (s1.prev_keys i) false
              else s1.keyboard_state) s ≠ st.keyboard_state s := hs
        rw [slot_ks_apply] at hs'
        by_cases hc : keyCode i ≠ 0 ∧ s = keyCode i
        · exact ⟨hc.2 ▸ hc.1, i, Nat.lt_succ_self i, Or.inr hc.2⟩
        · rw [if_neg hc] at hs'
          by_cases hp : s1.prev_keys i ≠ 0 ∧ s = s1.prev_keys i
          · exact ⟨hp.2 ▸ hp.1, i, Nat.lt_succ_self i, Or.inl (hp.2.trans hpi)⟩
          · rw [if_neg hp] at hs'
            obtain ⟨h0, j, hj, hj2⟩ := hks s hs'
            exact ⟨h0, j, Nat.lt_succ_of_lt hj, hj2⟩
      · show _ = { st with keyboard_state := _, prev_keys := _ }
        rw [hrest]
  · refine ⟨?_, ?_, ?_, ?_, rfl⟩
    · simp
    · intro j hj; exact absurd hj (Nat.not_lt_zero j)
    · intro j _; rfl
    · intro s hs; exact absurd rfl hs

/-- The slot phase completes when the slots before and after are inside the array. -/
theorem slot_phase_total (translate : Nat → Nat) (keyCode : Nat → Nat) (mod : Nat)
    (st : ps4_input) (tr : List keyboard_event)
    (hp : ∀ i < KEYBOARD_MAX_HISTORY, st.prev_keys i ≤ PS4_MAX_SCANCODE)
    (hc : ∀ i < KEYBOARD_MAX_HISTORY, keyCode i ≤ PS4_MAX_SCANCODE) :
    ∃ r, slot_phase translate keyCode mod (st, tr) = some r := by
  obtain ⟨r, e, _⟩ := foldlM_range_inv (slot_step translate keyCode mod)
    (fun i acc => ∀ j, i ≤ j → acc.1.prev_keys j = st.prev_keys j) KEYBOARD_MAX_HISTORY
    (fun i hi acc hP => by
      obtain ⟨s1, t1⟩ := acc
      have hpi : s1.prev_keys i ≤ PS4_MAX_SCANCODE := by
        rw [hP i (Nat.le_refl i)]; exact hp i hi
      refine ⟨_, slot_step_eq translate keyCode mod s1 t1 i hpi (hc i hi), ?_⟩
      intro j hj
      split
      · exact hP j (by omega)
      · show Function.update s1.prev_keys i (keyCode i) j = st.prev_keys j
        rw [Function.update_noteq (by omega)]
        exact hP j (by omega))
    (st, tr) (fun j _ => rfl)
  exact ⟨r, e⟩

/-- The slot phase on a snapshot equal to `prev_keys` does nothing. -/
theorem slot_phase_fixed (translate : Nat → Nat) (keyCode : Nat → Nat) (mod : Nat)
    (st : ps4_input) (tr : List keyboard_event)
    (h : ∀ i < KEYBOARD_MAX_HISTORY, keyCode i = st.prev_keys i) :
    slot_phase translate keyCode mod (st, tr) = some (st, tr) := by
  obtain ⟨r, e, p⟩ := foldlM_range_inv (slot_step translate keyCode mod)
    (fun _ acc => acc = (st, tr)) KEYBOARD_MAX_HISTORY
    (fun i hi acc hP => by
      subst hP
      refine ⟨(st, tr), ?_, rfl⟩
      simp [slot_step, h i hi])
    (st, tr) rfl
  rw [p] at e
  exact e

/-- The modifier phase on a state whose modifier cells agree with the mask does
nothing. -/
theorem modifier_phase_fixed (translate : Nat → Nat) (m : Nat) (st : ps4_input)
    (tr : List keyboard_event)
    (h : ∀ e ∈ modifier_lut, st.keyboard_state e.1 = decide (m &&& e.2 ≠ 0)) :
    modifier_phase translate (m % 2 ^ 32) (m % 2 ^ 16) (st, tr) = some (st, tr) := by
  obtain ⟨r, e, p⟩ := foldlM_inv (modifier_step translate (m % 2 ^ 32) (m % 2 ^ 16))
    (fun acc => acc = (st, tr)) modifier_lut
    (fun e he acc hP => by
      subst hP
      obtain ⟨k, b⟩ := e
      refine ⟨(st, tr), ?_, rfl⟩
      rw [modifier_step_edge translate m st tr k b (modifier_lut_entries (k, b) he).1
        (modifier_lut_bits (k, b) he)]
      have hkb := h (k, b) he
      simp only at hkb
      simp only [spec_modifier_edge, ← hkb, if_true, Option.toList, List.append_nil]
      rw [Function.update_eq_self])
    (st, tr) rfl
  rw [p] at e
  exact e

/-- A connected poll is the slot phase run on the outcome of the modifier phase,
which is described by `modifier_phase_spec`. -/
theorem poll_connected_decomp (translate : Nat → Nat) (F : SceMouseButton) (inp : poll_input)
    (st : ps4_input) (hc : inp.keyboard_state.connected = true) :
    ∃ s1 : ps4_input,
      (∀ e ∈ modifier_lut,
        s1.keyboard_state e.1 = decide (inp.keyboard_state.modifierKey &&& e.2 ≠ 0)) ∧
      (∀ s, is_modifier s = false → s1.keyboard_state s = st.keyboard_state s) ∧
      s1.prev_keys = st.prev_keys ∧
      ps4_input_poll translate F inp st =
        slot_phase translate inp.keyboard_state.keyCode (inp.keyboard_state.modifierKey % 2 ^ 16)
          (s1, spec_modifier_events translate inp.keyboard_state.modifierKey st.keyboard_state) := by
  obtain ⟨ks, e1, p1, p2⟩ := modifier_phase_spec translate inp.keyboard_state.modifierKey
    { ps4_input_poll_mouse F inp.mouse_ret inp.mouse_state st with keyboard_connected := true } []
  refine ⟨{ ps4_input_poll_mouse F inp.mouse_ret inp.mouse_state st with
            keyboard_connected := true, keyboard_state := ks }, p1, ?_, ?_, ?_⟩
  · intro s hs
    have := p2 s hs
    simp only at this
    rw [poll_mouse_keyboard_state] at this
    exact this
  · exact poll_mouse_prev_keys F _ _ st
  · simp only [ps4_input_poll, ps4_input_poll_keyboard, hc, if_true]
    rw [e1]
    simp only [Option.some_bind, List.nil_append, poll_mouse_keyboard_state]

/-- A connected poll that completes: its events, slots and changed cells. -/
theorem poll_connected_some (translate : Nat → Nat) (F : SceMouseButton) (inp : poll_input)
    (st : ps4_input) (hc : inp.keyboard_state.connected = true)
    (r : ps4_input × List keyboard_event) (h : ps4_input_poll translate F inp st = some r) :
    r.2 = spec_modifier_events translate inp.keyboard_state.modifierKey st.keyboard_state ++
      spec_slot_events translate inp.keyboard_state.keyCode st.prev_keys
        inp.keyboard_state.modifierKey ∧
    (∀ j < KEYBOARD_MAX_HISTORY, r.1.prev_keys j = inp.keyboard_state.keyCode j) ∧
    (∀ j, KEYBOARD_MAX_HISTORY ≤ j → r.1.prev_keys j = st.prev_keys j) ∧
    (∀ e ∈ modifier_lut,
      (∀ j < KEYBOARD_MAX_HISTORY, e.1 ≠ st.prev_keys j ∧ e.1 ≠ inp.keyboard_state.keyCode j) →
      r.1.keyboard_state e.1 = decide (inp.keyboard_state.modifierKey &&& e.2 ≠ 0)) ∧
    (∀ s, r.1.keyboard_state s ≠ st.keyboard_state s →
      is_modifier s = true ∨
      (s ≠ 0 ∧ ∃ j < KEYBOARD_MAX_HISTORY, s = st.prev_keys j ∨ s = inp.keyboard_state.keyCode j)) := by
  obtain ⟨s1, p1, p2, p3, e⟩ := poll_connected_decomp translate F inp st hc
  rw [e] at h
  obtain ⟨q1, q2, q3, q4, _⟩ := slot_phase_some translate inp.keyboard_state.keyCode
    inp.keyboard_state.modifierKey s1 _ r h
  rw [p3] at q1 q3 q4
  refine ⟨q1, q2, q3, ?_, ?_⟩
  · intro e he hno
    rw [← p1 e he]
    by_contra hne
    obtain ⟨_, j, hj, hj2⟩ := q4 e.1 hne
    rcases hj2 with h1 | h1
    · exact (hno j hj).1 h1
    · exact (hno j hj).2 h1
  · intro s hs
    by_cases hm : is_modifier s = true
    · exact Or.inl hm
    · right
      have hm' : is_modifier s = false := by
        cases hv : is_modifier s
        · rfl
        · exact absurd hv hm
      apply q4 s
      rw [p2 s hm']
      exact hs

/-- A connected poll completes when the slots before and after are inside the
array. -/
theorem poll_connected_total (translate : Nat → Nat) (F : SceMouseButton) (inp : poll_input)
    (st : ps4_input) (hc : inp.keyboard_state.connected = true)
    (hp : ∀ i < KEYBOARD_MAX_HISTORY, st.prev_keys i ≤ PS4_MAX_SCANCODE)
    (hk : ∀ i < KEYBOARD_MAX_HISTORY, inp.keyboard_state.keyCode i ≤ PS4_MAX_SCANCODE) :
    ∃ r, ps4_input_poll translate F inp st = some r := by
  obtain ⟨s1, _, _, p3, e⟩ := poll_connected_decomp translate F inp st hc
  rw [e]
  apply slot_phase_total
  · rw [p3]; exact hp
  · exact hk

/-- C13: for every state and every connected snapshot, a poll that stays inside
`keyboard_state` emits, after the modifier-phase events, for slot index i ascending
from 0 to 5 nothing when slots[i] = prev_keys[i] and otherwise up(translate(prev_keys[i]))
if prev_keys[i] != 0 followed by down(translate(slots[i])) if slots[i] != 0, each
with text 0, device KEYBOARD and mod the low 16 bits of the modifier mask, and
leaves prev_keys equal to the snapshot's slot array; the poll stays inside the array
whenever all prev_keys entries and slot values are <= 0xE7. -/
theorem C13_slot_phase_events (translate : Nat → Nat) (F : SceMouseButton) (inp : poll_input)
    (st : ps4_input) (hc : inp.keyboard_state.connected = true) :
    (∀ r, ps4_input_poll translate F inp st = some r →
      r.2 = spec_modifier_events translate inp.keyboard_state.modifierKey st.keyboard_state ++
        spec_slot_events translate inp.keyboard_state.keyCode st.prev_keys
          inp.keyboard_state.modifierKey ∧
      ∀ i < KEYBOARD_MAX_HISTORY, r.1.prev_keys i = inp.keyboard_state.keyCode i) ∧
    ((∀ i < KEYBOARD_MAX_HISTORY, st.prev_keys i ≤ PS4_MAX_SCANCODE) →
      (∀ i < KEYBOARD_MAX_HISTORY, inp.keyboard_state.keyCode i ≤ PS4_MAX_SCANCODE) →
      ∃ r, ps4_input_poll translate F inp st = some r) := by
  constructor
  · intro r h
    obtain ⟨q1, q2, _⟩ := poll_connected_some translate F inp st hc r h
    exact ⟨q1, q2⟩
  · intro hp hk
    exact poll_connected_total translate F inp st hc hp hk

/-- Instance of C13 at scenario S2: slots [0x04, 0, 0, 0, 0, 0] on the initial state
emit down for scancode 0x04; the empty snapshot on the state holding 0x04 in slot 0
emits up for it. -/
theorem C13_slot_phase_events_witness :
    (∃ r, ps4_input_poll id ⟨1, 2, 4, 0x80000000⟩
        ⟨0, ⟨false, 0, 0, 0⟩, ⟨true, 0, cells [4, 0, 0, 0, 0, 0]⟩⟩ ps4_input_initialize = some r ∧
      r.2 = [⟨true, 4, 4, 0, 0, retro_device.KEYBOARD⟩] ∧
      ∀ i < KEYBOARD_MAX_HISTORY, r.1.prev_keys i = cells [4, 0, 0, 0, 0, 0] i) ∧
    (∃ r, ps4_input_poll id ⟨1, 2, 4, 0x80000000⟩
        ⟨0, ⟨false, 0, 0, 0⟩, ⟨true, 0, cells [0, 0, 0, 0, 0, 0]⟩⟩
        { ps4_input_initialize with
          keyboard_state := fun s => decide (s = 4)
          prev_keys := cells [4, 0, 0, 0, 0, 0] } = some r ∧
      r.2 = [⟨false, 4, 4, 0, 0, retro_device.KEYBOARD⟩] ∧
      ∀ i < KEYBOARD_MAX_HISTORY, r.1.prev_keys i = cells [0, 0, 0, 0, 0, 0] i) := by
  constructor
  · obtain ⟨r, h⟩ := (C13_slot_phase_events id ⟨1, 2, 4, 0x80000000⟩
      ⟨0, ⟨false, 0, 0, 0⟩, ⟨true, 0, cells [4, 0, 0, 0, 0, 0]⟩⟩ ps4_input_initialize rfl).2
      (by decide) (by decide)
    obtain ⟨e, p⟩ := (C13_slot_phase_events id ⟨1, 2, 4, 0x80000000⟩
      ⟨0, ⟨false, 0, 0, 0⟩, ⟨true, 0, cells [4, 0, 0, 0, 0, 0]⟩⟩ ps4_input_initialize rfl).1 r h
    exact ⟨r, h, e.trans (by decide), p⟩
  · obtain ⟨r, h⟩ := (C13_slot_phase_events id ⟨1, 2, 4, 0x80000000⟩
      ⟨0, ⟨false, 0, 0, 0⟩, ⟨true, 0, cells [0, 0, 0, 0, 0, 0]⟩⟩
      { ps4_input_initialize with
        keyboard_state := fun s => decide (s = 4)
        prev_keys := cells [4, 0, 0, 0, 0, 0] } rfl).2 (by decide) (by decide)
    obtain ⟨e, p⟩ := (C13_slot_phase_events id ⟨1, 2, 4, 0x80000000⟩
      ⟨0, ⟨false, 0, 0, 0⟩, ⟨true, 0, cells [0, 0, 0, 0, 0, 0]⟩⟩
      { ps4_input_initialize with
        keyboard_state := fun s => decide (s = 4)
        prev_keys := cells [4, 0, 0, 0, 0, 0] } rfl).1 r h
    exact ⟨r, h, e.trans (by decide), p⟩

/-- C14: for every state and every modifier mask `m`, the modifier phase completes;
it visits the 11 rows of `modifier_lut` in declared order and for each row emits
exactly one event when `(m & bit) != 0` differs from `keyboard_state[scancode]`
(down if the bit is set, up otherwise, with the translated key id and
mod = m mod 2^16) and none when they agree; when it ends
`keyboard_state[scancode] = ((m & bit) != 0)` for each of the 11 rows. -/
theorem C14_modifier_phase_events (translate : Nat → Nat) (m : Nat) (st : ps4_input)
    (tr : List keyboard_event) :
    ∃ st', modifier_phase translate (m % 2 ^ 32) (m % 2 ^ 16) (st, tr) =
        some (st', tr ++ spec_modifier_events translate m st.keyboard_state) ∧
      (∀ e ∈ modifier_lut, st'.keyboard_state e.1 = decide (m &&& e.2 ≠ 0)) ∧
      (spec_modifier_events translate m st.keyboard_state).length ≤ PS4_NUM_MODIFIERS := by
  obtain ⟨ks, e1, p1, _⟩ := modifier_phase_spec translate m st tr
  refine ⟨_, e1, p1, ?_⟩
  unfold spec_modifier_events
  exact (List.length_filterMap_le _ _).trans (Nat.le_of_eq modifier_lut_length)

/-- Instance of C14 at mask 0x11 on the initial state: down for LCTRL, RCTRL and
NUMLOCK, in table order. -/
theorem C14_modifier_phase_events_witness :
    ∃ st', modifier_phase id (0x11 % 2 ^ 32) (0x11 % 2 ^ 16) ( ps4_input_initialize, []) =
        some (st', [⟨true, 0xE0, 0xE0, 0, 0x11, retro_device.KEYBOARD⟩,
                    ⟨true, 0xE4, 0xE4, 0, 0x11, retro_device.KEYBOARD⟩,
                    ⟨true, 0x53, 0x53, 0, 0x11, retro_device.KEYBOARD⟩]) ∧
      ∀ e ∈ modifier_lut, st'.keyboard_state e.1 = decide (0x11 &&& e.2 ≠ 0) := by
  obtain ⟨st', e, p, _⟩ := C14_modifier_phase_events id 0x11 ps4_input_initialize []
  have h : [] ++ spec_modifier_events id 0x11 ps4_input_initialize.keyboard_state =
      [⟨true, 0xE0, 0xE0, 0, 0x11, retro_device.KEYBOARD⟩,
       ⟨true, 0xE4, 0xE4, 0, 0x11, retro_device.KEYBOARD⟩,
       ⟨true, 0x53, 0x53, 0, 0x11, retro_device.KEYBOARD⟩] := by decide
  rw [h] at e
  exact ⟨st', e, p⟩

/-- C15, counterexample: from the initial state, with modifier mask 0 and slots
[0x39, 0, 0, 0, 0, 0] (0x39 is the CAPSLOCK row of `modifier_lut`), the modifier
phase leaves `keyboard_state[0x39]` false and the slot phase sets it to true. -/
theorem C15_slot_phase_sets_modifier_cell_counterexample :
    ((modifier_phase id (0 % 2 ^ 32) (0 % 2 ^ 16) ( ps4_input_initialize, [])).bind
      (fun a => (slot_phase id (cells [0x39, 0, 0, 0, 0, 0]) (0 % 2 ^ 16) a).map
        (fun r => (is_modifier 0x39, a.1.keyboard_state 0x39, r.1.keyboard_state 0x39))))
      = some (true, false, true) := by
  decide

/-- C15, amended: for every state and connected snapshot, the modifier phase
completes and changes `keyboard_state` only at the 11 scancodes of `modifier_lut`;
the slot phase, when it stays inside the array (as it does when all prev_keys
entries and slot values are <= 0xE7), changes `keyboard_state` only at nonzero
scancodes that occur in prev_keys or in the snapshot's slots; so the slot phase
changes no cell of a `modifier_lut` scancode when neither prev_keys nor the slots
hold such a scancode. -/
theorem C15_phase_frames (translate : Nat → Nat) (m : Nat) (keyCode : Nat → Nat)
    (st : ps4_input) (tr : List keyboard_event) :
    (∃ r, modifier_phase translate (m % 2 ^ 32) (m % 2 ^ 16) (st, tr) = some r ∧
      ∀ s, r.1.keyboard_state s ≠ st.keyboard_state s → ∃ e ∈ modifier_lut, e.1 = s) ∧
    (∀ r, slot_phase translate keyCode (m % 2 ^ 16) (st, tr) = some r →
      (∀ s, r.1.keyboard_state s ≠ st.keyboard_state s →
        s ≠ 0 ∧ ∃ j < KEYBOARD_MAX_HISTORY, s = st.prev_keys j ∨ s = keyCode j) ∧
      ((∀ j < KEYBOARD_MAX_HISTORY,
          is_modifier (st.prev_keys j) = false ∧ is_modifier (keyCode j) = false) →
        ∀ e ∈ modifier_lut, r.1.keyboard_state e.1 = st.keyboard_state e.1)) ∧
    ((∀ i < KEYBOARD_MAX_HISTORY, st.prev_keys i ≤ PS4_MAX_SCANCODE) →
      (∀ i < KEYBOARD_MAX_HISTORY, keyCode i ≤ PS4_MAX_SCANCODE) →
      ∃ r, slot_phase translate keyCode (m % 2 ^ 16) (st, tr) = some r) := by
  refine ⟨?_, ?_, ?_⟩
  · obtain ⟨ks, e1, _, p2⟩ := modifier_phase_spec translate m st tr
    refine ⟨_, e1, ?_⟩
    intro s hs
    apply (is_modifier_iff s).mp
    cases hv : is_modifier s
    · exact absurd (p2 s hv) hs
    · rfl
  · intro r h
    obtain ⟨_, _, _, q4, _⟩ := slot_phase_some translate keyCode m st tr r h
    refine ⟨q4, ?_⟩
    intro hno e he
    by_contra hne
    obtain ⟨_, j, hj, hj2⟩ := q4 e.1 hne
    have hm : is_modifier e.1 = true := (is_modifier_iff e.1).mpr ⟨e, he, rfl⟩
    rcases hj2 with h1 | h1
    · rw [h1, (hno j hj).1] at hm
      exact absurd hm (by decide)
    · rw [h1, (hno j hj).2] at hm
      exact absurd hm (by decide)
  · intro hp hk
    exact slot_phase_total translate keyCode (m % 2 ^ 16) st tr hp hk

/-- Instance of C15: slots [4, 5, 0, 0, 0, 0] on the initial state leave every
modifier cell as it was. -/
theorem C15_phase_frames_witness :
    ∃ r, slot_phase id (cells [4, 5, 0, 0, 0, 0]) (0x02 % 2 ^ 16) ( ps4_input_initialize, [])
        = some r ∧
      ∀ e ∈ modifier_lut, r.1.keyboard_state e.1 = ps4_input_initialize.keyboard_state e.1 := by
  obtain ⟨r, h⟩ := (C15_phase_frames id 0x02 (cells [4, 5, 0, 0, 0, 0]) ps4_input_initialize
    []).2.2 (by decide) (by decide)
  exact ⟨r, h, ((C15_phase_frames id 0x02 (cells [4, 5, 0, 0, 0, 0]) ps4_input_initialize
    []).2.1 r h).2 (by decide)⟩

/-- C17: for every state whose prev_keys hold no `modifier_lut` scancode and every
connected snapshot whose slot values are <= 0xE7 and hold no `modifier_lut`
scancode: if the poll of that snapshot stays inside the array (as it does when all
prev_keys entries are <= 0xE7), then polling the identical snapshot again
completes, emits no event and leaves `keyboard_state` and `prev_keys` unchanged. -/
theorem C17_poll_idempotent (translate : Nat → Nat) (F : SceMouseButton) (inp inp2 : poll_input)
    (st : ps4_input)
    (hc : inp.keyboard_state.connected = true)
    (hsame : inp2.keyboard_state = inp.keyboard_state)
    (hprev : ∀ i < KEYBOARD_MAX_HISTORY, is_modifier (st.prev_keys i) = false)
    (hslots : ∀ i < KEYBOARD_MAX_HISTORY,
      inp.keyboard_state.keyCode i ≤ PS4_MAX_SCANCODE ∧
      is_modifier (inp.keyboard_state.keyCode i) = false) :
    (∀ r1, ps4_input_poll translate F inp st = some r1 →
      ∃ st2, ps4_input_poll translate F inp2 r1.1 = some (st2, []) ∧
        st2.keyboard_state = r1.1.keyboard_state ∧ st2.prev_keys = r1.1.prev_keys) ∧
    ((∀ i < KEYBOARD_MAX_HISTORY, st.prev_keys i ≤ PS4_MAX_SCANCODE) →
      ∃ r1, ps4_input_poll translate F inp st = some r1) := by
  constructor
  · intro r1 h1
    obtain ⟨_, q2, _, q4, _⟩ := poll_connected_some translate F inp st hc r1 h1
    have hc2 : inp2.keyboard_state.connected = true := by rw [hsame]; exact hc
    have hmod : ∀ e ∈ modifier_lut,
        r1.1.keyboard_state e.1 = decide (inp2.keyboard_state.modifierKey &&& e.2 ≠ 0) := by
      intro e he
      rw [hsame]
      apply q4 e he
      intro j hj
      have hm : is_modifier e.1 = true := (is_modifier_iff e.1).mpr ⟨e, he, rfl⟩
      constructor
      · intro h
        rw [h, hprev j hj] at hm
        exact absurd hm (by decide)
      · intro h
        rw [h, (hslots j hj).2] at hm
        exact absurd hm (by decide)
    refine ⟨{ ps4_input_poll_mouse F inp2.mouse_ret inp2.mouse_state r1.1 with
              keyboard_connected := true }, ?_, ?_, ?_⟩
    · simp only [ps4_input_poll, ps4_input_poll_keyboard, hc2, if_true]
      rw [modifier_phase_fixed translate inp2.keyboard_state.modifierKey _ []
        (by
          intro e he
          show (ps4_input_poll_mouse F inp2.mouse_ret inp2.mouse_state r1.1).keyboard_state e.1 = _
          rw [poll_mouse_keyboard_state]
          exact hmod e he)]
      simp only [Option.some_bind]
      apply slot_phase_fixed
      intro i hi
      show _ = (ps4_input_poll_mouse F inp2.mouse_ret inp2.mouse_state r1.1).prev_keys i
      rw [poll_mouse_prev_keys, hsame]
      exact (q2 i hi).symm
    · exact poll_mouse_keyboard_state F _ _ r1.1
    · exact poll_mouse_prev_keys F _ _ r1.1
  · intro hp
    exact poll_connected_total translate F inp st hc hp (fun i hi => (hslots i hi).1)

/-- Instance of C17 at mask 0x11 and slots [4, 5, 5, 0, 0, 0] on the initial state. -/
theorem C17_poll_idempotent_witness :
    ∃ r1, ps4_input_poll id ⟨1, 2, 4, 0x80000000⟩
        ⟨0, ⟨false, 0, 0, 0⟩, ⟨true, 0x11, cells [4, 5, 5, 0, 0, 0]⟩⟩ ps4_input_initialize
        = some r1 ∧
      ∃ st2, ps4_input_poll id ⟨1, 2, 4, 0x80000000⟩
          ⟨0, ⟨false, 0, 0, 0⟩, ⟨true, 0x11, cells [4, 5, 5, 0, 0, 0]⟩⟩ r1.1 = some (st2, []) ∧
        st2.keyboard_state = r1.1.keyboard_state ∧ st2.prev_keys = r1.1.prev_keys := by
  obtain ⟨r1, h1⟩ := (C17_poll_idempotent id ⟨1, 2, 4, 0x80000000⟩
    ⟨0, ⟨false, 0, 0, 0⟩, ⟨true, 0x11, cells [4, 5, 5, 0, 0, 0]⟩⟩
    ⟨0, ⟨false, 0, 0, 0⟩, ⟨true, 0x11, cells [4, 5, 5, 0, 0, 0]⟩⟩
    ps4_input_initialize rfl rfl (by decide) (by decide)).2 (by decide)
  exact ⟨r1, h1, (C17_poll_idempotent id ⟨1, 2, 4, 0x80000000⟩
    ⟨0, ⟨false, 0, 0, 0⟩, ⟨true, 0x11, cells [4, 5, 5, 0, 0, 0]⟩⟩
    ⟨0, ⟨false, 0, 0, 0⟩, ⟨true, 0x11, cells [4, 5, 5, 0, 0, 0]⟩⟩
    ps4_input_initialize rfl rfl (by decide) (by decide)).1 r1 h1⟩

/-! ## Theorems: reachable states -/

theorem poll_seq_append (translate : Nat → Nat) (F : SceMouseButton) (l1 l2 : List poll_input) :
    ∀ acc, poll_seq translate F (l1 ++ l2) acc =
      (poll_seq translate F l1 acc).bind (poll_seq translate F l2) := by
  induction l1 with
  | nil => intro acc; rfl
  | cons inp rest ih =>
    intro acc
    simp only [List.cons_append, poll_seq]
    cases ps4_input_poll translate F inp acc.1 with
    | none => rfl
    | some r => simp only [Option.some_bind]; exact ih _

theorem normal_snapshot_ok (prev keyCode : Nat → Nat) (h : normal_snapshot prev keyCode) :
    snapshot_ok prev keyCode := by
  intro i hi
  obtain ⟨a, b, c⟩ := h i hi
  refine ⟨a, b, fun h0 => ⟨fun j hj => ?_, fun j hj hij => ?_⟩⟩
  · exact (c h0 j (by omega) (by omega)).1
  · exact (c h0 j hj (by omega)).2

theorem normal_snapshot_congr (p1 p2 keyCode : Nat → Nat)
    (h : ∀ j < KEYBOARD_MAX_HISTORY, p1 j = p2 j) (hn : normal_snapshot p2 keyCode) :
    normal_snapshot p1 keyCode := by
  intro i hi
  obtain ⟨a, b, c⟩ := hn i hi
  refine ⟨a, b, fun h0 j hj hji => ⟨(c h0 j hj hji).1, ?_⟩⟩
  rw [h j hj]
  exact (c h0 j hj hji).2

theorem normal_polls_congr (l : List poll_input) (p1 p2 : Nat → Nat)
    (h : ∀ j < KEYBOARD_MAX_HISTORY, p1 j = p2 j) (hn : normal_polls p2 l) :
    normal_polls p1 l := by
  cases l with
  | nil => trivial
  | cons x xs => exact ⟨hn.1, normal_snapshot_congr _ _ _ h hn.2.1, hn.2.2⟩

/-- One poll of normal use completes, keeps the invariant, stores the snapshot in
`prev_keys` and leaves every modifier cell equal to its mask bit. -/
theorem poll_normal (translate : Nat → Nat) (F : SceMouseButton) (inp : poll_input)
    (st : ps4_input) (pre : List keyboard_event) (hinv : kbd_inv st pre)
    (hc : inp.keyboard_state.connected = true)
    (hn : normal_snapshot st.prev_keys inp.keyboard_state.keyCode) :
    ∃ r, ps4_input_poll translate F inp st = some r ∧ kbd_inv r.1 (pre ++ r.2) ∧
      (∀ j < KEYBOARD_MAX_HISTORY, r.1.prev_keys j = inp.keyboard_state.keyCode j) ∧
      (∀ e ∈ modifier_lut,
        r.1.keyboard_state e.1 = decide (inp.keyboard_state.modifierKey &&& e.2 ≠ 0)) := by
  obtain ⟨r, e, p, _⟩ := poll_inv translate F inp st pre hinv
    (fun _ => normal_snapshot_ok _ _ hn)
  obtain ⟨_, q2, _, q4, _⟩ := poll_connected_some translate F inp st hc r e
  refine ⟨r, e, p, q2, fun x hx => q4 x hx ?_⟩
  intro j hj
  have hm : is_modifier x.1 = true := (is_modifier_iff x.1).mpr ⟨x, hx, rfl⟩
  constructor
  · intro h
    rw [h, (hinv.slot_range j hj).2] at hm
    exact absurd hm (by decide)
  · intro h
    rw [h, (hn j hj).2.1] at hm
    exact absurd hm (by decide)

/-- Every sequence of polls of normal use completes; after its last poll the
invariant holds, `prev_keys` is the last snapshot and the modifier cells are the
bits of its mask. -/
theorem poll_seq_normal (translate : Nat → Nat) (F : SceMouseButton) (inputs : List poll_input) :
    ∀ (last : poll_input) (st : ps4_input) (tr : List keyboard_event), kbd_inv st tr →
      normal_polls st.prev_keys (inputs ++ [last]) →
      ∃ st' tr', poll_seq translate F (inputs ++ [last]) (st, tr) = some (st', tr') ∧
        kbd_inv st' tr' ∧
        (∀ j < KEYBOARD_MAX_HISTORY, st'.prev_keys j = last.keyboard_state.keyCode j) ∧
        (∀ e ∈ modifier_lut,
          st'.keyboard_state e.1 = decide (last.keyboard_state.modifierKey &&& e.2 ≠ 0)) := by
  induction inputs with
  | nil =>
    intro last st tr hinv hn
    obtain ⟨hc, hs, _⟩ := hn
    obtain ⟨r, e, p, q, m⟩ := poll_normal translate F last st tr hinv hc hs
    refine ⟨r.1, tr ++ r.2, ?_, p, q, m⟩
    simp only [List.nil_append, poll_seq, e, Option.some_bind]
  | cons inp rest ih =>
    intro last st tr hinv hn
    obtain ⟨hc, hs, hrest⟩ := hn
    obtain ⟨r, e, p, q, _⟩ := poll_normal translate F inp st tr hinv hc hs
    have hrest' : normal_polls r.1.prev_keys (rest ++ [last]) :=
      normal_polls_congr (rest ++ [last]) _ _ q hrest
    obtain ⟨st', tr', e', p', q', m'⟩ := ih last r.1 (tr ++ r.2) p hrest'
    refine ⟨st', tr', ?_, p', q', m'⟩
    simp only [List.cons_append, poll_seq, e, Option.some_bind]
    exact e'

/-- C16: starting from `ps4_input_initialize`, after each poll of a sequence of
connected polls of normal use (slot values <= 0xE7, no `modifier_lut` scancode, no
nonzero scancode twice, no nonzero scancode at an index different from the one
where the preceding snapshot held it): for every non-modifier `s`,
`keyboard_state[s]` is true exactly when `s` occurs in that snapshot's slots;
for every `modifier_lut` row, `keyboard_state[scancode]` equals whether its bit is
set in that snapshot's mask; and every `prev_keys[i]` is 0 or a pressed scancode. -/
theorem C16_normal_use (translate : Nat → Nat) (F : SceMouseButton) (inputs : List poll_input)
    (last : poll_input) (hn : normal_polls (fun _ => 0) (inputs ++ [last])) :
    ∃ st tr, poll_seq translate F (inputs ++ [last]) ( ps4_input_initialize, []) = some (st, tr) ∧
      (∀ s, is_modifier s = false →
        (st.keyboard_state s = true ↔ slot_holds last.keyboard_state.keyCode s)) ∧
      (∀ e ∈ modifier_lut,
        st.keyboard_state e.1 = decide (last.keyboard_state.modifierKey &&& e.2 ≠ 0)) ∧
      (∀ i < KEYBOARD_MAX_HISTORY,
        st.prev_keys i = 0 ∨ st.keyboard_state (st.prev_keys i) = true) := by
  obtain ⟨st, tr, e, p, q, m⟩ := poll_seq_normal translate F inputs last ps4_input_initialize []
    kbd_inv_initialize hn
  refine ⟨st, tr, e, ?_, m, ?_⟩
  · intro s hs
    constructor
    · intro hks
      rcases p.pressed_origin s hks with h | ⟨i, hi, h⟩
      · rw [hs] at h; exact absurd h (by decide)
      · refine ⟨?_, i, hi, (q i hi).symm.trans h⟩
        intro h0
        rw [h0, p.zero] at hks
        exact absurd hks (by decide)
    · rintro ⟨h0, i, hi, h⟩
      have hp : st.prev_keys i = s := (q i hi).trans h
      have := p.slot_pressed i hi (by rw [hp]; exact h0)
      rw [hp] at this
      exact this
  · intro i hi
    by_cases h : st.prev_keys i = 0
    · exact Or.inl h
    · exact Or.inr (p.slot_pressed i hi h)

/-- Instance of C16 at three polls: keys 4 and 6, then 4, 5, 6, then 5, 6, 7. -/
theorem C16_normal_use_witness :
    ∃ st tr, poll_seq id ⟨1, 2, 4, 0x80000000⟩
        ([⟨0, ⟨false, 0, 0, 0⟩, ⟨true, 0x02, cells [4, 0, 6, 0, 0, 0]⟩⟩,
          ⟨0, ⟨false, 0, 0, 0⟩, ⟨true, 0x00, cells [4, 5, 6, 0, 0, 0]⟩⟩] ++
         [⟨0, ⟨false, 0, 0, 0⟩, ⟨true, 0x10, cells [0, 5, 6, 7, 0, 0]⟩⟩])
        ( ps4_input_initialize, []) = some (st, tr) ∧
      (∀ s, is_modifier s = false →
        (st.keyboard_state s = true ↔ slot_holds (cells [0, 5, 6, 7, 0, 0]) s)) ∧
      (∀ e ∈ modifier_lut, st.keyboard_state e.1 = decide (0x10 &&& e.2 ≠ 0)) ∧
      (∀ i < KEYBOARD_MAX_HISTORY,
        st.prev_keys i = 0 ∨ st.keyboard_state (st.prev_keys i) = true) :=
  C16_normal_use id ⟨1, 2, 4, 0x80000000⟩
    [⟨0, ⟨false, 0, 0, 0⟩, ⟨true, 0x02, cells [4, 0, 6, 0, 0, 0]⟩⟩,
     ⟨0, ⟨false, 0, 0, 0⟩, ⟨true, 0x00, cells [4, 5, 6, 0, 0, 0]⟩⟩]
    ⟨0, ⟨false, 0, 0, 0⟩, ⟨true, 0x10, cells [0, 5, 6, 7, 0, 0]⟩⟩ (by decide)

/-- One poll with in-range slots completes, keeps `keyboard_state[0]` false and
keeps every `prev_keys` entry inside the array. -/
theorem poll_in_range (translate : Nat → Nat) (F : SceMouseButton) (inp : poll_input)
    (st : ps4_input) (h0 : st.keyboard_state 0 = false)
    (hp : ∀ i < KEYBOARD_MAX_HISTORY, st.prev_keys i ≤ PS4_MAX_SCANCODE)
    (hk : inp.keyboard_state.connected = true →
      ∀ i < KEYBOARD_MAX_HISTORY, inp.keyboard_state.keyCode i ≤ PS4_MAX_SCANCODE) :
    ∃ r, ps4_input_poll translate F inp st = some r ∧ r.1.keyboard_state 0 = false ∧
      ∀ i < KEYBOARD_MAX_HISTORY, r.1.prev_keys i ≤ PS4_MAX_SCANCODE := by
  cases hc : inp.keyboard_state.connected with
  | false =>
    refine ⟨_, poll_disconnected translate F inp st hc, ?_, ?_⟩
    · show (ps4_input_poll_mouse F inp.mouse_ret inp.mouse_state st).keyboard_state 0 = false
      rw [poll_mouse_keyboard_state]; exact h0
    · intro i hi
      show (ps4_input_poll_mouse F inp.mouse_ret inp.mouse_state st).prev_keys i ≤ _
      rw [poll_mouse_prev_keys]; exact hp i hi
  | true =>
    obtain ⟨r, e⟩ := poll_connected_total translate F inp st hc hp (hk hc)
    obtain ⟨_, q2, _, _, q5⟩ := poll_connected_some translate F inp st hc r e
    refine ⟨r, e, ?_, ?_⟩
    · by_contra hne
      have hne' : r.1.keyboard_state 0 ≠ st.keyboard_state 0 := by rw [h0]; exact hne
      rcases q5 0 hne' with h | h
      · exact absurd h (by decide)
      · exact h.1 rfl
    · intro i hi
      rw [q2 i hi]
      exact hk hc i hi

/-- Every sequence of polls with in-range slots completes; the state reached has
`keyboard_state[0]` false and every `prev_keys` entry inside the array. -/
theorem poll_seq_in_range (translate : Nat → Nat) (F : SceMouseButton)
    (inputs : List poll_input) :
    ∀ (st : ps4_input) (tr : List keyboard_event), st.keyboard_state 0 = false →
      (∀ i < KEYBOARD_MAX_HISTORY, st.prev_keys i ≤ PS4_MAX_SCANCODE) →
      slots_in_range inputs →
      ∃ st' tr', poll_seq translate F inputs (st, tr) = some (st', tr') ∧
        st'.keyboard_state 0 = false ∧
        ∀ i < KEYBOARD_MAX_HISTORY, st'.prev_keys i ≤ PS4_MAX_SCANCODE := by
  induction inputs with
  | nil => intro st tr h0 hp _; exact ⟨st, tr, rfl, h0, hp⟩
  | cons inp rest ih =>
    intro st tr h0 hp hr
    obtain ⟨r, e, p0, pp⟩ := poll_in_range translate F inp st h0 hp
      (hr inp (List.mem_cons_self _ _))
    obtain ⟨st', tr', e', q⟩ := ih r.1 (tr ++ r.2) p0 pp
      (fun x hx => hr x (List.mem_cons_of_mem _ hx))
    refine ⟨st', tr', ?_, q⟩
    rw [poll_seq, e]
    exact e'

/-- C18: an access to `keyboard_state` has a result only for an index in 0..0xE7,
and every `modifier_lut` scancode is such an index; from `ps4_input_initialize`,
every sequence of polls whose connected snapshots have all six slot values <= 0xE7
completes, so every index it uses lies in 0..0xE7; every `prev_keys` entry of the
state reached is <= 0xE7, and a further such poll completes and keeps it so. -/
theorem C18_index_safety (translate : Nat → Nat) (F : SceMouseButton)
    (inputs : List poll_input) (next : poll_input)
    (hr : slots_in_range inputs) (hnext : slots_in_range [next]) :
    (∀ ks i b, ks_read ks i = some b → i ≤ PS4_MAX_SCANCODE) ∧
    (∀ ks i v ks', ks_write ks i v = some ks' → i ≤ PS4_MAX_SCANCODE) ∧
    (∀ e ∈ modifier_lut, e.1 ≤ PS4_MAX_SCANCODE) ∧
    ∃ st tr, poll_seq translate F inputs ( ps4_input_initialize, []) = some (st, tr) ∧
      (∀ i < KEYBOARD_MAX_HISTORY, st.prev_keys i ≤ PS4_MAX_SCANCODE) ∧
      ∃ r, ps4_input_poll translate F next st = some r ∧
        ∀ i < KEYBOARD_MAX_HISTORY, r.1.prev_keys i ≤ PS4_MAX_SCANCODE := by
  refine ⟨?_, ?_, fun e he => (modifier_lut_entries e he).1, ?_⟩
  · intro ks i b h
    unfold ks_read at h
    by_contra hi
    rw [if_neg hi] at h
    exact Option.noConfusion h
  · intro ks i v ks' h
    unfold ks_write at h
    by_contra hi
    rw [if_neg hi] at h
    exact Option.noConfusion h
  obtain ⟨st, tr, e, p0, pp⟩ := poll_seq_in_range translate F inputs ps4_input_initialize []
    rfl (fun _ _ => Nat.zero_le _) hr
  obtain ⟨r, e2, _, q⟩ := poll_in_range translate F next st p0 pp
    (hnext next (List.mem_singleton_self _))
  exact ⟨st, tr, e, pp, r, e2, q⟩

/-- Instance of C18 at polls with duplicate, modifier-table and maximal scancodes
and a disconnected snapshot holding 0xFF. -/
theorem C18_index_safety_witness :
    (∀ ks i b, ks_read ks i = some b → i ≤ PS4_MAX_SCANCODE) ∧
    (∀ ks i v ks', ks_write ks i v = some ks' → i ≤ PS4_MAX_SCANCODE) ∧
    (∀ e ∈ modifier_lut, e.1 ≤ PS4_MAX_SCANCODE) ∧
    ∃ st tr, poll_seq id ⟨1, 2, 4, 0x80000000⟩
        [⟨0, ⟨false, 0, 0, 0⟩, ⟨true, 0x01, cells [4, 4, 0xE7, 0, 0, 0]⟩⟩,
         ⟨0, ⟨false, 0, 0, 0⟩, ⟨false, 0x00, cells [0xFF, 0, 0, 0, 0, 0]⟩⟩,
         ⟨0, ⟨false, 0, 0, 0⟩, ⟨true, 0x00, cells [0xE7, 4, 0x39, 0, 0, 0]⟩⟩]
        ( ps4_input_initialize, []) = some (st, tr) ∧
      (∀ i < KEYBOARD_MAX_HISTORY, st.prev_keys i ≤ PS4_MAX_SCANCODE) ∧
      ∃ r, ps4_input_poll id ⟨1, 2, 4, 0x80000000⟩
          ⟨0, ⟨false, 0, 0, 0⟩, ⟨true, 0xFF, cells [0, 0xE0, 4, 4, 0, 0]⟩⟩ st = some r ∧
        ∀ i < KEYBOARD_MAX_HISTORY, r.1.prev_keys i ≤ PS4_MAX_SCANCODE :=
  C18_index_safety id ⟨1, 2, 4, 0x80000000⟩
    [⟨0, ⟨false, 0, 0, 0⟩, ⟨true, 0x01, cells [4, 4, 0xE7, 0, 0, 0]⟩⟩,
     ⟨0, ⟨false, 0, 0, 0⟩, ⟨false, 0x00, cells [0xFF, 0, 0, 0, 0, 0]⟩⟩,
     ⟨0, ⟨false, 0, 0, 0⟩, ⟨true, 0x00, cells [0xE7, 4, 0x39, 0, 0, 0]⟩⟩]
    ⟨0, ⟨false, 0, 0, 0⟩, ⟨true, 0xFF, cells [0, 0xE0, 4, 4, 0, 0]⟩⟩ (by decide) (by decide)

/-- C20: in every state reached from `ps4_input_initialize` through polls whose
connected snapshots have slot values <= 0xE7, `keyboard_state[0]` is false, so a
KEYBOARD query for any id < RETROK_LAST whose reverse lookup
`rarch_keysym_lut[id]` is 0 returns 0. -/
theorem C20_unmapped_keys_released (translate : Nat → Nat) (F : SceMouseButton)
    (inputs : List poll_input) (hr : slots_in_range inputs) :
    ∃ st tr, poll_seq translate F inputs ( ps4_input_initialize, []) = some (st, tr) ∧
      st.keyboard_state 0 = false ∧
      ∀ (RETROK_LAST : Nat) (rarch_keysym_lut : Nat → Nat) (id : Nat),
        id < RETROK_LAST → rarch_keysym_lut id = 0 →
        ps4_input_state_keyboard RETROK_LAST rarch_keysym_lut st id = some 0 := by
  obtain ⟨st, tr, e, p0, _⟩ := poll_seq_in_range translate F inputs ps4_input_initialize []
    rfl (fun _ _ => Nat.zero_le _) hr
  refine ⟨st, tr, e, p0, ?_⟩
  intro L lut id hid hl
  simp [ps4_input_state_keyboard, hid, hl, ks_read, p0]

/-- Instance of C20 at two connected polls. -/
theorem C20_unmapped_keys_released_witness :
    ∃ st tr, poll_seq id ⟨1, 2, 4, 0x80000000⟩
        [⟨0, ⟨false, 0, 0, 0⟩, ⟨true, 0x01, cells [4, 4, 0xE7, 0, 0, 0]⟩⟩,
         ⟨0, ⟨false, 0, 0, 0⟩, ⟨true, 0x00, cells [0, 4, 0x39, 0, 0, 0]⟩⟩]
        ( ps4_input_initialize, []) = some (st, tr) ∧
      st.keyboard_state 0 = false ∧
      ∀ (RETROK_LAST : Nat) (rarch_keysym_lut : Nat → Nat) (id : Nat),
        id < RETROK_LAST → rarch_keysym_lut id = 0 →
        ps4_input_state_keyboard RETROK_LAST rarch_keysym_lut st id = some 0 :=
  C20_unmapped_keys_released id ⟨1, 2, 4, 0x80000000⟩
    [⟨0, ⟨false, 0, 0, 0⟩, ⟨true, 0x01, cells [4, 4, 0xE7, 0, 0, 0]⟩⟩,
     ⟨0, ⟨false, 0, 0, 0⟩, ⟨true, 0x00, cells [0, 4, 0x39, 0, 0, 0]⟩⟩] (by decide)

end PS4Input
